import Mathlib

/-!
# ImageView / ComplexImage / Point: a shallow embedding

The C++ classes of `ImageView.hpp`, `ComplexImage.hpp` and `Point.h` are embedded as Lean
structures and functions.

* `size_t` is the 64-bit unsigned type: a `size_t` value is a `Nat`, and every
  multiplication and addition the source performs on `size_t` is reduced modulo
  `2 ^ 64` (`szMul`, `szAdd`).
* `std::vector<uint8_t>` is a `List Byte`; a read or write outside the vector is
  undefined behaviour in C++ and is `none` here.
* Objects that must be told apart by address (`&rhs == this`) live in a `Store`,
  a list of objects addressed by position.
* `float` and `double` are a type parameter `F` with the operations the source uses;
  the laws a proof needs are stated as hypotheses. Concrete inputs are evaluated on
  `Flt`, the IEEE-754 values with exact finite arithmetic.
-/

namespace TestRepos

/-! ## Definitions -/

/-- One `uint8_t`. -/
abbrev Byte : Type := Fin 256

/-- Number of values of `size_t` (64-bit target). -/
def SIZE_MOD : Nat := 2 ^ 64

/-- Multiplication of two `size_t` values. -/
def szMul (a b : Nat) : Nat := (a * b) % SIZE_MOD

/-- Addition of two `size_t` values. -/
def szAdd (a b : Nat) : Nat := (a + b) % SIZE_MOD

/-- Conversion of a signed integer to `size_t` (`static_cast<size_t>` and the usual
arithmetic conversions): the value modulo `2 ^ 64`. -/
def toSizeT (v : Int) : Nat := (v % (SIZE_MOD : Int)).toNat

/-- The class `ImageView` without its mutex: the four `size_t` members and `data_`. -/
structure ImageView where
  width_ : Nat
  height_ : Nat
  channels_ : Nat
  element_size_ : Nat
  data_ : List Byte
deriving DecidableEq, Repr

namespace ImageView

/-- Accessor `width()`. -/
def width (v : ImageView) : Nat := v.width_

/-- Accessor `height()`. -/
def height (v : ImageView) : Nat := v.height_

/-- Accessor `channels()`. -/
def channels (v : ImageView) : Nat := v.channels_

/-- Accessor `size()`: `data_.size()`. -/
def size (v : ImageView) : Nat := v.data_.length

/-- Accessor `element_size()`. -/
def element_size (v : ImageView) : Nat := v.element_size_

/-- Accessor `empty()`: `data_.empty()`. -/
def empty (v : ImageView) : Bool := v.data_.isEmpty

/-- Source `ImageView() = default`: the default member initialisers, `element_size_ = sizeof(uint8_t)`. -/
def default : ImageView :=
  { width_ := 0, height_ := 0, channels_ := 0, element_size_ := 1, data_ := [] }

/-- Source `ImageView(const ImageView& other)`. -/
def copyCtor (other : ImageView) : ImageView :=
  { width_ := other.width, height_ := other.height, channels_ := other.channels,
    element_size_ := other.element_size, data_ := other.data_ }

/-- Source `ImageView(ImageView&& other)`: the new object, then `other` as the constructor leaves it
(a moved-from `std::vector` is empty). -/
def moveCtor (other : ImageView) : ImageView × ImageView :=
  ({ width_ := other.width, height_ := other.height, channels_ := other.channels,
     element_size_ := other.element_size, data_ := other.data_ },
   { width_ := 0, height_ := 0, channels_ := 0, element_size_ := 0, data_ := [] })

/-- Source `std::vector<uint8_t>::resize(n)`: keeps the first `n` bytes, appends zero bytes up to `n`. -/
def vectorResize (d : List Byte) (n : Nat) : List Byte :=
  d.take n ++ List.replicate (n - d.length) 0

/-- Source `reinit(width, height)`. -/
def reinit (v : ImageView) (width height : Nat) : ImageView :=
  { v with
    width_ := width
    height_ := height
    data_ := vectorResize v.data_ (szMul (szMul (szMul width height) v.channels_) v.element_size_) }

/-- Source `swap(other)`: `this` and `other` after the five member swaps. -/
def swap (this other : ImageView) : ImageView × ImageView :=
  ({ width_ := other.width_, height_ := other.height_, channels_ := other.channels_,
     element_size_ := other.element_size_, data_ := other.data_ },
   { width_ := this.width_, height_ := this.height_, channels_ := this.channels_,
     element_size_ := this.element_size_, data_ := this.data_ })

/-- Source `ImageView(width, height, channels, element_size)`: `data_(n)` holds `n` zero bytes. -/
def ofDims (width height channels element_size : Nat) : ImageView :=
  { width_ := width, height_ := height, channels_ := channels, element_size_ := element_size,
    data_ := List.replicate (szMul (szMul (szMul width height) channels) element_size) 0 }

/-- Source `ptr<T>(index)`: the byte offset `index * element_size_` of the element the returned
pointer addresses in `data_`. -/
def ptr (v : ImageView) (index : Nat) : Nat := szMul index v.element_size_

/-- Source `ptr<T>(x, y, c)`: the byte offset `((y * width_ + x) * channels_ + c) * element_size_`. -/
def ptrXYC (v : ImageView) (x y c : Nat) : Nat :=
  szMul (szAdd (szMul (szAdd (szMul y v.width_) x) v.channels_) c) v.element_size_

/-- The `element_size_` bytes of the element that `ptr(x, y, c)` addresses. -/
def elementBytes (v : ImageView) (x y c : Nat) : List Byte :=
  (v.data_.drop (v.ptrXYC x y c)).take v.element_size_

/-- Source `memcpy(dst + dstOff, src + srcOff, n)`; `none` when either range leaves its vector. -/
def memcpy (dst : List Byte) (dstOff : Nat) (src : List Byte) (srcOff n : Nat) :
    Option (List Byte) :=
  if srcOff + n ≤ src.length ∧ dstOff + n ≤ dst.length then
    some (dst.take dstOff ++ ((src.drop srcOff).take n ++ dst.drop (dstOff + n)))
  else none

/-- A store through a typed reference: the object representation `bytes` of the stored value
is written at byte offset `off`; `none` when the range leaves the vector. -/
def storeBytes (d : List Byte) (off : Nat) (bytes : List Byte) : Option (List Byte) :=
  if off + bytes.length ≤ d.length then
    some (d.take off ++ (bytes ++ d.drop (off + bytes.length)))
  else none

/-- Source `get<T>(x, y, c) = value`, `bytes` being the `sizeof(T)` bytes of `value`. -/
def setXYC (v : ImageView) (x y c : Nat) (bytes : List Byte) : Option ImageView :=
  match storeBytes v.data_ (v.ptrXYC x y c) bytes with
  | none => none
  | some d => some { v with data_ := d }

/-- Source `get<T>(index) = value`, `bytes` being the `sizeof(T)` bytes of `value`. -/
def setIndex (v : ImageView) (index : Nat) (bytes : List Byte) : Option ImageView :=
  match storeBytes v.data_ (v.ptr index) bytes with
  | none => none
  | some d => some { v with data_ := d }

end ImageView

/-- Modelled from the spec: `strobeRectangle<T>` of `Primitives/Headers/strobe_rectangle.h`, a
header that is not among the sources. The spec describes it as supplying `left`, `right`,
`bottom`, `top` and `width()`, `height()` in buffer-local integer coordinates. `T` is a signed
integer type, so the four edges are integers; `width` and `height` hold what `width()` and
`height()` return, non-negative extents that the conversion to `size_t` leaves unchanged. -/
structure strobeRectangle where
  left : Int
  right : Int
  bottom : Int
  top : Int
  width : Nat
  height : Nat
deriving DecidableEq, Repr

namespace ImageView

/-- The `for` loop of the cropping constructor, `rows` iterations left to run: each copies
`smallStep` bytes from `starting_point + bigStride` in the source to `smallStride` in `data`,
then advances both strides. -/
def cropRows (src : List Byte) (starting_point bigStep smallStep : Nat) :
    Nat → Nat → Nat → List Byte → Option (List Byte)
  | 0, _, _, data => some data
  | rows + 1, bigStride, smallStride, data =>
    match memcpy data smallStride src (starting_point + bigStride) smallStep with
    | none => none
    | some data1 =>
      cropRows src starting_point bigStep smallStep rows
        (szAdd bigStride bigStep) (szAdd smallStride smallStep) data1

/-- Source `ImageView(const ImageView& source, const strobeRectangle<T>& ROIrect)`. The loop
`for (auto y = ROIrect.bottom; y < ROIrect.top; y++)` runs `top - bottom` times (not at all
when `top <= bottom`). -/
def cropCtor (source : ImageView) (ROIrect : strobeRectangle) : Option ImageView :=
  let width_ := ROIrect.width
  let height_ := ROIrect.height
  let channels_ := source.channels
  let element_size_ := source.element_size
  let data_ : List Byte :=
    List.replicate (szMul (szMul (szMul width_ height_) channels_) element_size_) 0
  let bigStep := szMul (szMul source.width channels_) element_size_
  let smallStep := szMul (szMul width_ channels_) element_size_
  let starting_point :=
    source.ptr 0 + szMul (szMul (toSizeT ROIrect.left) channels_) element_size_
  let bigStride := szMul bigStep (toSizeT ROIrect.bottom)
  let smallStride := 0
  match cropRows source.data_ starting_point bigStep smallStep
      (ROIrect.top - ROIrect.bottom).toNat bigStride smallStride data_ with
  | none => none
  | some d =>
    some { width_ := width_, height_ := height_, channels_ := channels_,
           element_size_ := element_size_, data_ := d }

/-- Source `crop(ROIrect)`: `return ImageView(*this, ROIrect)`. -/
def crop (v : ImageView) (ROIrect : strobeRectangle) : Option ImageView :=
  cropCtor v ROIrect

/-- The size predicate in `size_t` arithmetic: `size()` is the `size_t` product
`width() * height() * channels() * element_size()`. -/
def SizeInv (v : ImageView) : Prop :=
  v.size = szMul (szMul (szMul v.width v.height) v.channels) v.element_size

/-- The size predicate over the natural numbers: `size()` is the exact product
`width() * height() * channels() * element_size()`. -/
def ExactSizeInv (v : ImageView) : Prop :=
  v.size = v.width * v.height * v.channels * v.element_size

instance (v : ImageView) : Decidable v.SizeInv := by
  unfold SizeInv; infer_instance

instance (v : ImageView) : Decidable v.ExactSizeInv := by
  unfold ExactSizeInv; infer_instance

/-- One write through a typed accessor: `get<T>(x, y, c) = value` or `get<T>(index) = value`,
with the bytes of the value. -/
inductive TypedWrite where
  | xyc (x y c : Nat) (bytes : List Byte)
  | flat (index : Nat) (bytes : List Byte)
deriving DecidableEq, Repr

/-- Performs one typed write on a buffer. -/
def write (v : ImageView) : TypedWrite → Option ImageView
  | .xyc x y c bytes => v.setXYC x y c bytes
  | .flat index bytes => v.setIndex index bytes

end ImageView

/-- The live `ImageView` objects of a program, addressed by position. -/
abbrev Store : Type := List ImageView

namespace Store

/-- A new object copy-constructed from object `other`: the store with the new object, and
its address. -/
def copyConstruct (s : Store) (other : Nat) : Option (Store × Nat) :=
  match s[other]? with
  | none => none
  | some o => some (s ++ [ImageView.copyCtor o], s.length)

/-- A new object move-constructed from object `other`. -/
def moveConstruct (s : Store) (other : Nat) : Option (Store × Nat) :=
  match s[other]? with
  | none => none
  | some o => some (s.set other (ImageView.moveCtor o).2 ++ [(ImageView.moveCtor o).1], s.length)

/-- A new object obtained by `source.crop(ROIrect)`. -/
def crop (s : Store) (source : Nat) (ROIrect : strobeRectangle) : Option (Store × Nat) :=
  match s[source]? with
  | none => none
  | some o =>
    match o.crop ROIrect with
    | none => none
    | some r => some (s ++ [r], s.length)

/-- Source `this.swap(other)` on two objects of the store. -/
def swap (s : Store) (this other : Nat) : Option Store :=
  match s[this]?, s[other]? with
  | some t, some o => some ((s.set this (ImageView.swap t o).1).set other (ImageView.swap t o).2)
  | _, _ => none

/-- Source `this = rhs` (copy assignment): returns at once when `&rhs == this`; otherwise copies
`rhs` into a temporary and swaps `this` with it. -/
def copyAssign (s : Store) (this rhs : Nat) : Option Store :=
  if rhs = this then some s
  else
    match s[this]?, s[rhs]? with
    | some t, some r => some (s.set this (ImageView.swap t (ImageView.copyCtor r)).1)
    | _, _ => none

/-- Source `this = std::move(rhs)` (move assignment): returns at once when `&rhs == this`; otherwise
moves `rhs` into a temporary and swaps `this` with it. -/
def moveAssign (s : Store) (this rhs : Nat) : Option Store :=
  if rhs = this then some s
  else
    match s[this]?, s[rhs]? with
    | some t, some r =>
      some ((s.set rhs (ImageView.moveCtor r).2).set this
        (ImageView.swap t (ImageView.moveCtor r).1).1)
    | _, _ => none

/-- Source `obj.reinit(width, height)`. -/
def reinit (s : Store) (obj width height : Nat) : Option Store :=
  match s[obj]? with
  | none => none
  | some o => some (s.set obj (o.reinit width height))

/-- One typed write through object `obj`. -/
def write (s : Store) (obj : Nat) (w : ImageView.TypedWrite) : Option Store :=
  match s[obj]? with
  | none => none
  | some o =>
    match o.write w with
    | none => none
    | some o1 => some (s.set obj o1)

/-- A sequence of typed writes through object `obj`, in order. -/
def writes (s : Store) (obj : Nat) : List ImageView.TypedWrite → Option Store
  | [] => some s
  | w :: ws =>
    match s.write obj w with
    | none => none
    | some s1 => writes s1 obj ws

end Store


/-! ### ComplexImage -/

/-- What a call yields: a value, a failed `assert` (the program aborts), or undefined
behaviour (an access outside a vector). -/
inductive Outcome (α : Type) where
  | ok (value : α)
  | assertFailed
  | undefinedBehaviour
deriving DecidableEq, Repr

/-- A `std::complex<float>` over a scalar type `F` standing for `float`. -/
structure Cplx (F : Type) where
  re : F
  im : F
deriving DecidableEq, Repr

/-- Source `std::complex<float>()`: both parts zero. -/
instance (F : Type) [Zero F] : Zero (Cplx F) := ⟨{ re := 0, im := 0 }⟩

/-- Source `operator+=` of `std::complex<float>`: the real parts and the imaginary parts are added
separately. -/
instance (F : Type) [Add F] : Add (Cplx F) :=
  ⟨fun clhs crhs => { re := clhs.re + crhs.re, im := clhs.im + crhs.im }⟩

/-- The class `ComplexImage`; `S` is the sample type (`std::complex<float>` in the source). -/
structure ComplexImage (S : Type) where
  width_ : Nat
  height_ : Nat
  data_ : List S
deriving DecidableEq, Repr

namespace ComplexImage

variable {S F : Type}

/-- Source `ComplexImage()`. -/
def default : ComplexImage S := { width_ := 0, height_ := 0, data_ := [] }

/-- Source `ComplexImage(width, height)`: `data_.resize(width_ * height_)` on the empty vector. -/
def ofDims [Zero S] (width height : Nat) : ComplexImage S :=
  { width_ := width, height_ := height, data_ := List.replicate (szMul width height) 0 }

/-- Source `ComplexImage(const ComplexImage& input)` (and the non-const overload). -/
def copyCtor (input : ComplexImage S) : ComplexImage S :=
  { width_ := input.width_, height_ := input.height_, data_ := input.data_ }

/-- Source `ComplexImage(std::vector<std::complex<float>>& input, width, height)`. -/
def ofVector (input : List S) (width height : Nat) : ComplexImage S :=
  { width_ := width, height_ := height, data_ := input }

/-- The loop `for (auto &it : data_) it = std::complex<float>(*input++, 0.0f)`: one value is
read from `input` for each sample; `none` when `input` ends first. -/
def fillReal [Zero F] : List (Cplx F) → List F → Option (List (Cplx F))
  | [], _ => some []
  | _ :: _, [] => none
  | _ :: ds, x :: xs =>
    match fillReal ds xs with
    | none => none
    | some t => some ({ re := x, im := 0 } :: t)

/-- Source `ComplexImage(float* input, width, height)`, `input` pointing at the given values. -/
def ofReal [Zero F] (input : List F) (width height : Nat) : Outcome (ComplexImage (Cplx F)) :=
  match fillReal (List.replicate (szMul width height) (0 : Cplx F)) input with
  | none => .undefinedBehaviour
  | some d => .ok { width_ := width, height_ := height, data_ := d }

/-- Source `swap(other)`: `this` and `other` after the three member swaps. -/
def swap (this other : ComplexImage S) : ComplexImage S × ComplexImage S :=
  ({ width_ := other.width_, height_ := other.height_, data_ := other.data_ },
   { width_ := this.width_, height_ := this.height_, data_ := this.data_ })

/-- Source `deserialize(in)`: the three reads of the external `::deserialize` fill a temporary with
the width, height and samples the stream holds, and `this` is swapped with it. -/
def deserialize (this : ComplexImage S) (inWidth inHeight : Nat) (inData : List S) :
    ComplexImage S :=
  (swap this { width_ := inWidth, height_ := inHeight, data_ := inData }).1

/-- Source `clear()`. -/
def clear (_this : ComplexImage S) : ComplexImage S :=
  { width_ := 0, height_ := 0, data_ := [] }

/-- Accessor `width()`. -/
def width (A : ComplexImage S) : Nat := A.width_

/-- Accessor `height()`. -/
def height (A : ComplexImage S) : Nat := A.height_

/-- Accessor `size()`: `data_.size()`. -/
def size (A : ComplexImage S) : Nat := A.data_.length

/-- The loop `for (; lhs != result.data_.end(); ++lhs, ++rhs) op(*lhs, *rhs)`, which
`std::transform(first1, last1, first2, first1, op)` also performs: every sample of the left
range is combined with the sample the right iterator points at; `none` when the right
vector ends first. -/
def transform (op : S → S → S) : List S → List S → Option (List S)
  | [], _ => some []
  | _ :: _, [] => none
  | l :: ls, r :: rs =>
    match transform op ls rs with
    | none => none
    | some t => some (op l r :: t)

/-- Source `ComplexOperator(op, matrhs)`: the `assert` on the dimensions, the copy of `*this`, the
loop. -/
def ComplexOperator (op : S → S → S) (this matrhs : ComplexImage S) :
    Outcome (ComplexImage S) :=
  if matrhs.width_ = this.width_ ∧ matrhs.height_ = this.height_ then
    match transform op (copyCtor this).data_ matrhs.data_ with
    | none => .undefinedBehaviour
    | some d => .ok { copyCtor this with data_ := d }
  else .assertFailed

/-- Source `ComplexOperatorZero(op, matrhs)`: the same statements as `ComplexOperator`. -/
def ComplexOperatorZero (op : S → S → S) (this matrhs : ComplexImage S) :
    Outcome (ComplexImage S) :=
  if matrhs.width_ = this.width_ ∧ matrhs.height_ = this.height_ then
    match transform op (copyCtor this).data_ matrhs.data_ with
    | none => .undefinedBehaviour
    | some d => .ok { copyCtor this with data_ := d }
  else .assertFailed

/-- Source `ComplexOperatorConst(op)`: `op` applied to every sample of a copy of `*this`. -/
def ComplexOperatorConst (op : S → S) (this : ComplexImage S) : ComplexImage S :=
  { copyCtor this with data_ := (copyCtor this).data_.map op }

/-- Source `operator*(const ComplexImage&)`: `clhs *= crhs`. -/
def mul [Mul S] (this rhs : ComplexImage S) : Outcome (ComplexImage S) :=
  ComplexOperator (fun clhs crhs => clhs * crhs) this rhs

/-- Source `operator/(const ComplexImage&)`: `clhs /= crhs`. -/
def div [Div S] (this rhs : ComplexImage S) : Outcome (ComplexImage S) :=
  ComplexOperator (fun clhs crhs => clhs / crhs) this rhs

/-- Source `operator+(const ComplexImage&)`: `clhs += crhs`. -/
def add [Add S] (this rhs : ComplexImage S) : Outcome (ComplexImage S) :=
  ComplexOperator (fun clhs crhs => clhs + crhs) this rhs

/-- Source `multiplying(rhs)`: `clhs *= crhs` through `ComplexOperatorZero`. -/
def multiplying [Mul S] (this rhs : ComplexImage S) : Outcome (ComplexImage S) :=
  ComplexOperatorZero (fun clhs crhs => clhs * crhs) this rhs

/-- Source `operator*(const float&)`: `c *= rhs` scales both parts. -/
def mulScalar [Mul F] (this : ComplexImage (Cplx F)) (rhs : F) : ComplexImage (Cplx F) :=
  ComplexOperatorConst (fun c => { re := c.re * rhs, im := c.im * rhs }) this

/-- Source `operator+(const float&)`: `c += rhs` adds to the real part. -/
def addScalar [Add F] (this : ComplexImage (Cplx F)) (rhs : F) : ComplexImage (Cplx F) :=
  ComplexOperatorConst (fun c => { re := c.re + rhs, im := c.im }) this

/-- Source `squareMagnitude()`: `c = c.real() * c.real() + c.imag() * c.imag()`. -/
def squareMagnitude [Add F] [Mul F] [Zero F] (this : ComplexImage (Cplx F)) :
    ComplexImage (Cplx F) :=
  ComplexOperatorConst (fun c => { re := c.re * c.re + c.im * c.im, im := 0 }) this

/-- Source `conjugate()`: `c = std::complex<float>(c.real(), -c.imag())`. -/
def conjugate [Neg F] (this : ComplexImage (Cplx F)) : ComplexImage (Cplx F) :=
  ComplexOperatorConst (fun c => { re := c.re, im := -c.im }) this

/-- The member `sumOverChannels()`: `result(width_, height_)`, `result.data_ = data_`, then
`std::transform` adds `data_` to `result.data_` in place. -/
def sumOverChannels [Add S] (this : ComplexImage S) : Outcome (ComplexImage S) :=
  match transform (fun a b => a + b) this.data_ this.data_ with
  | none => .undefinedBehaviour
  | some d => .ok { width_ := this.width_, height_ := this.height_, data_ := d }

/-- The loop of the free `sumOverChannels`: `input[i]` is added into `result` for each
further element of `input`. -/
def sumLoop [Add S] (result : ComplexImage S) : List (ComplexImage S) → Outcome (ComplexImage S)
  | [] => .ok result
  | x :: xs =>
    match transform (fun a b => a + b) result.data_ x.data_ with
    | none => .undefinedBehaviour
    | some d => sumLoop { result with data_ := d } xs

/-- The size predicate of a field: `size() = width() * height()`. -/
def SizeInv (A : ComplexImage S) : Prop := A.size = A.width * A.height

instance (A : ComplexImage S) : Decidable A.SizeInv := by
  unfold SizeInv; infer_instance

end ComplexImage

/-- The free function `sumOverChannels(std::vector<ComplexImage>& input)`: `result(input[0])`,
undefined for an empty `input`, then the loop over `input[1]`, `input[2]`, ... -/
def sumOverChannels {S : Type} [Add S] : List (ComplexImage S) → Outcome (ComplexImage S)
  | [] => .undefinedBehaviour
  | first :: rest => ComplexImage.sumLoop (ComplexImage.copyCtor first) rest


/-! ### Complex multiplication, squareNorm, moves -/

/-- Source `operator*=` of `std::complex<float>`, taken from the generic `std::complex`:
`r = re * z.re - im * z.im; im = re * z.im + im * z.re; re = r`. -/
instance (F : Type) [Add F] [Sub F] [Mul F] : Mul (Cplx F) :=
  ⟨fun clhs crhs =>
    { re := clhs.re * crhs.re - clhs.im * crhs.im,
      im := clhs.re * crhs.im + clhs.im * crhs.re }⟩

/-- The value of `g(r)` where `r` is what a call yields: `g` is applied to a returned value,
a failed `assert` and undefined behaviour stay what they are. -/
def Outcome.map {α β : Type} (g : α → β) : Outcome α → Outcome β
  | .ok value => .ok (g value)
  | .assertFailed => .assertFailed
  | .undefinedBehaviour => .undefinedBehaviour


namespace ComplexImage

/-- Source `squareNorm()`: the samples are accumulated in order into `sumSquareNorm`, starting
from `0.0f`; the `size_t` product `width_ * height_` is converted to `float` for the
division. -/
def squareNorm {F : Type} [Zero F] [Add F] [Mul F] [Div F] [NatCast F]
    (this : ComplexImage (Cplx F)) : F :=
  this.data_.foldl
      (fun sumSquareNorm lhs => sumSquareNorm + (lhs.re * lhs.re + lhs.im * lhs.im)) 0 /
    ((szMul this.width_ this.height_ : Nat) : F)

end ComplexImage

/-- The values of a `float` or `double` as IEEE-754 has them, for evaluating the source on
concrete inputs: a finite number, the two infinities, and NaN. Finite results are held
exactly, which is what IEEE-754 arithmetic yields whenever the exact result is representable
(as for the small integers of the examples); rounding, overflow and the sign of zero are not
represented. -/
inductive Flt where
  | finite (q : ℚ)
  | posInf
  | negInf
  | nan
deriving DecidableEq

namespace Flt

/-- IEEE-754 negation. -/
def neg : Flt → Flt
  | finite a => finite (-a)
  | posInf => negInf
  | negInf => posInf
  | nan => nan

/-- IEEE-754 addition: `inf + (-inf)` is NaN. -/
def add : Flt → Flt → Flt
  | finite a, finite b => finite (a + b)
  | finite _, posInf => posInf
  | finite _, negInf => negInf
  | posInf, finite _ => posInf
  | negInf, finite _ => negInf
  | posInf, posInf => posInf
  | negInf, negInf => negInf
  | posInf, negInf => nan
  | negInf, posInf => nan
  | nan, _ => nan
  | _, nan => nan

/-- IEEE-754 multiplication: `0 * inf` is NaN, otherwise the signs multiply. -/
def mul : Flt → Flt → Flt
  | finite a, finite b => finite (a * b)
  | finite a, posInf => if a = 0 then nan else if 0 < a then posInf else negInf
  | finite a, negInf => if a = 0 then nan else if 0 < a then negInf else posInf
  | posInf, finite b => if b = 0 then nan else if 0 < b then posInf else negInf
  | negInf, finite b => if b = 0 then nan else if 0 < b then negInf else posInf
  | posInf, posInf => posInf
  | negInf, negInf => posInf
  | posInf, negInf => negInf
  | negInf, posInf => negInf
  | nan, _ => nan
  | _, nan => nan

/-- IEEE-754 division: `0 / 0` and `inf / inf` are NaN, a non-zero finite number divided by
zero is an infinity, a finite number divided by an infinity is zero. -/
def div : Flt → Flt → Flt
  | finite a, finite b =>
    if b = 0 then (if a = 0 then nan else if 0 < a then posInf else negInf)
    else finite (a / b)
  | finite _, posInf => finite 0
  | finite _, negInf => finite 0
  | posInf, finite b => if 0 ≤ b then posInf else negInf
  | negInf, finite b => if 0 ≤ b then negInf else posInf
  | posInf, posInf => nan
  | posInf, negInf => nan
  | negInf, posInf => nan
  | negInf, negInf => nan
  | nan, _ => nan
  | _, nan => nan

instance : Zero Flt := ⟨finite 0⟩

instance : One Flt := ⟨finite 1⟩

instance : Neg Flt := ⟨neg⟩

instance : Add Flt := ⟨add⟩

instance : Sub Flt := ⟨fun a b => add a (neg b)⟩

instance : Mul Flt := ⟨mul⟩

instance : Div Flt := ⟨div⟩

/-- Conversion of a `size_t` value to `float`. -/
instance : NatCast Flt := ⟨fun n => finite n⟩

end Flt


namespace ComplexImage

/-- Source `ComplexImage b(std::move(a))`: the class declares copy constructors and no move
constructor, which keeps the compiler from generating one, so the call binds to
`ComplexImage(const ComplexImage&)`. The new object, then `input` as the call leaves it. -/
def moveConstruct {S : Type} (input : ComplexImage S) : ComplexImage S × ComplexImage S :=
  (copyCtor input, input)

/-- Source `this = std::move(rhs)`: the class declares no assignment operator, and its copy
constructors keep the compiler from generating a move assignment, so the call binds to the
implicit copy assignment, which copies member by member. `this`, then `rhs`, as the call
leaves them. -/
def moveAssign {S : Type} (_this rhs : ComplexImage S) : ComplexImage S × ComplexImage S :=
  ({ width_ := rhs.width_, height_ := rhs.height_, data_ := rhs.data_ }, rhs)

end ComplexImage

/-- The live `ComplexImage` objects of a program, addressed by position. -/
abbrev FieldStore (S : Type) : Type := List (ComplexImage S)

namespace FieldStore

/-- A call `r = this.f(rhs)` of a `const` member function that takes `rhs` by `const`
reference and returns a field by value: the field returned is a new object of the store. -/
def callBinary {S : Type} (f : ComplexImage S → ComplexImage S → Outcome (ComplexImage S))
    (s : FieldStore S) (this rhs : Nat) : Outcome (FieldStore S × Nat) :=
  match s[this]?, s[rhs]? with
  | some a, some b => (f a b).map (fun r => (s ++ [r], s.length))
  | _, _ => .undefinedBehaviour

/-- A call `r = this.f()` of a `const` member function that returns a field by value. -/
def callUnary {S : Type} (f : ComplexImage S → Outcome (ComplexImage S))
    (s : FieldStore S) (this : Nat) : Outcome (FieldStore S × Nat) :=
  match s[this]? with
  | some a => (f a).map (fun r => (s ++ [r], s.length))
  | none => .undefinedBehaviour

/-- A call `v = this.g()` of a `const` member function that returns a number. -/
def callValue {S F : Type} (g : ComplexImage S → F) (s : FieldStore S) (this : Nat) :
    Outcome (FieldStore S × F) :=
  match s[this]? with
  | some a => .ok (s, g a)
  | none => .undefinedBehaviour

/-- A call `r = sumOverChannels(input)` of the free function on the vector `input`: the
vector as the call leaves it (the only writes of the function go through `result.begin()`),
and the field returned. -/
def sumOverChannels {S : Type} [Add S] (input : FieldStore S) :
    Outcome (FieldStore S × ComplexImage S) :=
  (TestRepos.sumOverChannels input).map (fun r => (input, r))

end FieldStore


/-! ### Point -/

/-- The struct `Point<Type>`: the two coordinates. -/
structure Point (T : Type) where
  x_ : T
  y_ : T
deriving DecidableEq

/-- Source `Point::transform(transformationMatrix)`: returns at once unless the matrix has 9
entries; the projection is computed in `double` (`D`), `toDouble` being the conversion of a
coordinate in `transformationMatrix[i] * x_` and `ofDouble` the `static_cast<Type>`. -/
def Point.transform {T D : Type} [Add D] [Mul D] [Div D] (toDouble : T → D) (ofDouble : D → T)
    (p : Point T) (transformationMatrix : List D) : Point T :=
  match transformationMatrix with
  | [m0, m1, m2, m3, m4, m5, m6, m7, m8] =>
    let projectionPointZ := m6 * toDouble p.x_ + m7 * toDouble p.y_ + m8
    let projectionPointX := (m0 * toDouble p.x_ + m1 * toDouble p.y_ + m2) / projectionPointZ
    let projectionPointY := (m3 * toDouble p.x_ + m4 * toDouble p.y_ + m5) / projectionPointZ
    { x_ := ofDouble projectionPointX, y_ := ofDouble projectionPointY }
  | _ => p


/-! ### The row copies of the cropping constructor -/

/-- One `memcpy(data_.data() + dstOff, source bytes + srcOff, count)` call of the cropping
loop. -/
structure RowCopy where
  dstOff : Nat
  srcOff : Nat
  count : Nat
deriving DecidableEq, Repr

namespace ImageView

/-- The `memcpy` calls that the loop of the cropping constructor issues, in order, with
`rows` iterations left to run: the same walk over `bigStride` and `smallStride` as
`cropRows`, recording the arguments of each call. -/
def cropCopies (starting_point bigStep smallStep : Nat) : Nat → Nat → Nat → List RowCopy
  | 0, _, _ => []
  | rows + 1, bigStride, smallStride =>
    { dstOff := smallStride, srcOff := starting_point + bigStride, count := smallStep } ::
      cropCopies starting_point bigStep smallStep rows
        (szAdd bigStride bigStep) (szAdd smallStride smallStep)

/-- Performs a list of `memcpy` calls in order; `none` as soon as one leaves a vector. -/
def runCopies (src : List Byte) : List RowCopy → List Byte → Option (List Byte)
  | [], data => some data
  | cp :: cps, data =>
    match memcpy data cp.dstOff src cp.srcOff cp.count with
    | none => none
    | some data1 => runCopies src cps data1

/-- The `memcpy` calls of `ImageView(source, ROIrect)`: the locals of `cropCtor`, and the
calls of its loop. -/
def cropCtorCopies (source : ImageView) (ROIrect : strobeRectangle) : List RowCopy :=
  let width_ := ROIrect.width
  let channels_ := source.channels
  let element_size_ := source.element_size
  let bigStep := szMul (szMul source.width channels_) element_size_
  let smallStep := szMul (szMul width_ channels_) element_size_
  let starting_point :=
    source.ptr 0 + szMul (szMul (toSizeT ROIrect.left) channels_) element_size_
  let bigStride := szMul bigStep (toSizeT ROIrect.bottom)
  let smallStride := 0
  cropCopies starting_point bigStep smallStep (ROIrect.top - ROIrect.bottom).toNat
    bigStride smallStride

end ImageView

/-! ## Theorems -/

theorem szMul_eq_of_lt {a b : Nat} (h : a * b < SIZE_MOD) : szMul a b = a * b :=
  Nat.mod_eq_of_lt h

theorem szMul3_mod (a b c d : Nat) :
    szMul (szMul (szMul a b) c) d = (a * b * c * d) % SIZE_MOD := by
  unfold szMul
  simp [Nat.mul_mod, Nat.mod_mod]

theorem szMul3_eq_of_lt {a b c d : Nat} (h : a * b * c * d < SIZE_MOD) :
    szMul (szMul (szMul a b) c) d = a * b * c * d := by
  rw [szMul3_mod, Nat.mod_eq_of_lt h]

/-! ### C1: the dimension constructor -/

/-- C1 (as stated, refuted): for `w = h = 2 ^ 32`, `c = es = 1` the product `w * h * c * es` is
`2 ^ 64`, the `size_t` product the constructor passes to `data_` is `0`, and `size()` is `0`. -/
theorem C1_size_counterexample :
    (ImageView.ofDims (2 ^ 32) (2 ^ 32) 1 1).size = 0 ∧
      (ImageView.ofDims (2 ^ 32) (2 ^ 32) 1 1).size ≠ 2 ^ 32 * 2 ^ 32 * 1 * 1 := by
  have h : (ImageView.ofDims (2 ^ 32) (2 ^ 32) 1 1).size = 0 := by
    simp [ImageView.ofDims, ImageView.size, szMul, SIZE_MOD]
  exact ⟨h, by rw [h]; decide⟩

/-- C1 (amended): `ImageView(w, h, c, es)` reports `width() = w`, `height() = h`,
`channels() = c`, `element_size() = es`; `size()` is `w * h * c * es` reduced modulo `2 ^ 64`,
hence `w * h * c * es` itself whenever that product is below `2 ^ 64`; every byte is zero. -/
theorem C1_ofDims (w h c es : Nat) :
    (ImageView.ofDims w h c es).width = w ∧
    (ImageView.ofDims w h c es).height = h ∧
    (ImageView.ofDims w h c es).channels = c ∧
    (ImageView.ofDims w h c es).element_size = es ∧
    (ImageView.ofDims w h c es).size = (w * h * c * es) % 2 ^ 64 ∧
    (w * h * c * es < 2 ^ 64 → (ImageView.ofDims w h c es).size = w * h * c * es) ∧
    (∀ b ∈ (ImageView.ofDims w h c es).data_, b = 0) := by
  have hsz : (ImageView.ofDims w h c es).size = (w * h * c * es) % 2 ^ 64 := by
    simp only [ImageView.ofDims, ImageView.size, List.length_replicate]
    exact szMul3_mod w h c es
  refine ⟨rfl, rfl, rfl, rfl, hsz, ?_, ?_⟩
  · intro hlt
    rw [hsz, Nat.mod_eq_of_lt hlt]
  · intro b hb
    exact List.eq_of_mem_replicate hb

/-- C1 at a concrete input: a 3 x 2 buffer with 4 channels of 2-byte elements has 48 bytes. -/
theorem C1_ofDims_witness : (ImageView.ofDims 3 2 4 2).size = 3 * 2 * 4 * 2 :=
  (C1_ofDims 3 2 4 2).2.2.2.2.2.1 (by decide)

/-! ### C2: the size predicate -/

theorem memcpy_length {dst src d : List Byte} {dstOff srcOff n : Nat}
    (h : ImageView.memcpy dst dstOff src srcOff n = some d) : d.length = dst.length := by
  unfold ImageView.memcpy at h
  split at h
  · rename_i hc
    simp only [Option.some.injEq] at h
    subst h
    simp only [List.length_append, List.length_take, List.length_drop]
    omega
  · exact absurd h (by simp)

theorem cropRows_length (src : List Byte) (sp bigStep smallStep : Nat) :
    ∀ (rows bigStride smallStride : Nat) (data d : List Byte),
      ImageView.cropRows src sp bigStep smallStep rows bigStride smallStride data = some d →
      d.length = data.length := by
  intro rows
  induction rows with
  | zero =>
    intro bigStride smallStride data d h
    simp only [ImageView.cropRows, Option.some.injEq] at h
    rw [h]
  | succ k ih =>
    intro bigStride smallStride data d h
    simp only [ImageView.cropRows] at h
    split at h
    · exact absurd h (by simp)
    · rename_i data1 hm
      rw [ih _ _ _ _ h, memcpy_length hm]

theorem vectorResize_length (d : List Byte) (n : Nat) :
    (ImageView.vectorResize d n).length = n := by
  simp only [ImageView.vectorResize, List.length_append, List.length_take,
    List.length_replicate]
  omega

theorem sizeInv_default : ImageView.default.SizeInv := by decide

theorem sizeInv_ofDims (w h c es : Nat) : (ImageView.ofDims w h c es).SizeInv := by
  simp [ImageView.SizeInv, ImageView.ofDims, ImageView.size, ImageView.width,
    ImageView.height, ImageView.channels, ImageView.element_size]

theorem sizeInv_cropCtor {source : ImageView} {roi : strobeRectangle} {r : ImageView}
    (h : ImageView.cropCtor source roi = some r) : r.SizeInv := by
  simp only [ImageView.cropCtor] at h
  split at h
  · exact absurd h (by simp)
  · rename_i d hd
    simp only [Option.some.injEq] at h
    subst h
    have hl := cropRows_length _ _ _ _ _ _ _ _ _ hd
    simp only [List.length_replicate] at hl
    simp only [ImageView.SizeInv, ImageView.size, ImageView.width, ImageView.height,
      ImageView.channels, ImageView.element_size] at *
    exact hl

theorem sizeInv_copyCtor {o : ImageView} (h : o.SizeInv) : (ImageView.copyCtor o).SizeInv := h

theorem sizeInv_moveCtor {o : ImageView} (h : o.SizeInv) :
    (ImageView.moveCtor o).1.SizeInv ∧ (ImageView.moveCtor o).2.SizeInv :=
  ⟨h, by
    show ImageView.SizeInv { width_ := 0, height_ := 0, channels_ := 0, element_size_ := 0, data_ := [] }
    decide⟩

theorem sizeInv_swap {a b : ImageView} (ha : a.SizeInv) (hb : b.SizeInv) :
    (ImageView.swap a b).1.SizeInv ∧ (ImageView.swap a b).2.SizeInv := ⟨hb, ha⟩

theorem sizeInv_reinit (v : ImageView) (w h : Nat) : (v.reinit w h).SizeInv := by
  simp only [ImageView.SizeInv, ImageView.reinit, ImageView.size, ImageView.width,
    ImageView.height, ImageView.channels, ImageView.element_size, vectorResize_length]

theorem sizeInv_copyAssign {s s1 : Store} {this rhs : Nat} (hs : ∀ v ∈ s, v.SizeInv)
    (h : s.copyAssign this rhs = some s1) : ∀ v ∈ s1, v.SizeInv := by
  unfold Store.copyAssign at h
  split at h
  · simp only [Option.some.injEq] at h
    subst h
    exact hs
  · split at h
    · rename_i t r ht hr
      simp only [Option.some.injEq] at h
      subst h
      intro v hv
      rcases List.mem_or_eq_of_mem_set hv with hv | hv
      · exact hs v hv
      · subst hv
        exact hs r (List.getElem?_mem hr)
    · exact absurd h (by simp)

theorem sizeInv_moveAssign {s s1 : Store} {this rhs : Nat} (hs : ∀ v ∈ s, v.SizeInv)
    (h : s.moveAssign this rhs = some s1) : ∀ v ∈ s1, v.SizeInv := by
  unfold Store.moveAssign at h
  split at h
  · simp only [Option.some.injEq] at h
    subst h
    exact hs
  · split at h
    · rename_i t r ht hr
      simp only [Option.some.injEq] at h
      subst h
      intro v hv
      rcases List.mem_or_eq_of_mem_set hv with hv | hv
      · rcases List.mem_or_eq_of_mem_set hv with hv | hv
        · exact hs v hv
        · subst hv
          exact (sizeInv_moveCtor (hs r (List.getElem?_mem hr))).2
      · subst hv
        exact hs r (List.getElem?_mem hr)
    · exact absurd h (by simp)

theorem exactSizeInv_of_sizeInv {v : ImageView} (h : v.SizeInv)
    (hlt : v.width * v.height * v.channels * v.element_size < 2 ^ 64) : v.ExactSizeInv := by
  unfold ImageView.ExactSizeInv
  unfold ImageView.SizeInv at h
  rw [h]
  exact szMul3_eq_of_lt hlt

/-- C2 (as stated, refuted): with the exact product the predicate fails for the buffer the
dimension constructor builds from `(2 ^ 32, 2 ^ 32, 1, 1)`, and `reinit(2 ^ 32, 2 ^ 32)` takes
the 1 x 1 one-byte buffer, which satisfies it, to a buffer that does not. -/
theorem C2_exact_counterexample :
    ¬ (ImageView.ofDims (2 ^ 32) (2 ^ 32) 1 1).ExactSizeInv ∧
    (ImageView.ofDims 1 1 1 1).ExactSizeInv ∧
    ¬ ((ImageView.ofDims 1 1 1 1).reinit (2 ^ 32) (2 ^ 32)).ExactSizeInv := by
  refine ⟨by decide, by decide, by decide⟩

/-- C2 (amended): the predicate `size() = width() * height() * channels() * element_size()`,
the product taken in `size_t` arithmetic (modulo `2 ^ 64`), holds for every `ImageView` the
default, dimension and crop constructors produce, and is preserved by copy construction, move
construction (destination and moved-from source), copy and move assignment, swap and reinit;
it gives the exact product whenever that product is below `2 ^ 64`. -/
theorem C2_sizeInv :
    ImageView.default.SizeInv ∧
    (∀ w h c es : Nat, (ImageView.ofDims w h c es).SizeInv) ∧
    (∀ (source : ImageView) (roi : strobeRectangle) (r : ImageView),
      ImageView.cropCtor source roi = some r → r.SizeInv) ∧
    (∀ o : ImageView, o.SizeInv → (ImageView.copyCtor o).SizeInv) ∧
    (∀ o : ImageView, o.SizeInv →
      (ImageView.moveCtor o).1.SizeInv ∧ (ImageView.moveCtor o).2.SizeInv) ∧
    (∀ (s s1 : Store) (this rhs : Nat), (∀ v ∈ s, v.SizeInv) →
      s.copyAssign this rhs = some s1 → ∀ v ∈ s1, v.SizeInv) ∧
    (∀ (s s1 : Store) (this rhs : Nat), (∀ v ∈ s, v.SizeInv) →
      s.moveAssign this rhs = some s1 → ∀ v ∈ s1, v.SizeInv) ∧
    (∀ a b : ImageView, a.SizeInv → b.SizeInv →
      (ImageView.swap a b).1.SizeInv ∧ (ImageView.swap a b).2.SizeInv) ∧
    (∀ (v : ImageView) (w h : Nat), (v.reinit w h).SizeInv) ∧
    (∀ v : ImageView, v.SizeInv →
      v.width * v.height * v.channels * v.element_size < 2 ^ 64 → v.ExactSizeInv) :=
  ⟨sizeInv_default, sizeInv_ofDims, fun _ _ _ h => sizeInv_cropCtor h,
    fun _ h => sizeInv_copyCtor h, fun _ h => sizeInv_moveCtor h,
    fun _ _ _ _ hs h => sizeInv_copyAssign hs h, fun _ _ _ _ hs h => sizeInv_moveAssign hs h,
    fun _ _ ha hb => sizeInv_swap ha hb, sizeInv_reinit,
    fun _ h hlt => exactSizeInv_of_sizeInv h hlt⟩

/-- C2 at a concrete input: moving out of a 2 x 1 buffer of 3 channels leaves both objects
with the predicate, and the 6-byte buffer has the exact size. -/
theorem C2_sizeInv_witness :
    (ImageView.moveCtor (ImageView.ofDims 2 1 3 1)).1.SizeInv ∧
    (ImageView.moveCtor (ImageView.ofDims 2 1 3 1)).2.SizeInv ∧
    (ImageView.ofDims 2 1 3 1).ExactSizeInv :=
  ⟨(C2_sizeInv.2.2.2.2.1 _ (sizeInv_ofDims 2 1 3 1)).1,
    (C2_sizeInv.2.2.2.2.1 _ (sizeInv_ofDims 2 1 3 1)).2,
    C2_sizeInv.2.2.2.2.2.2.2.2.2 _ (sizeInv_ofDims 2 1 3 1) (by decide)⟩

/-! ### C3: crop -/

theorem memcpy_getElem? {dst src d : List Byte} {dstOff srcOff n : Nat}
    (h : ImageView.memcpy dst dstOff src srcOff n = some d) (i : Nat) :
    d[i]? = if dstOff ≤ i ∧ i < dstOff + n then src[srcOff + (i - dstOff)]? else dst[i]? := by
  unfold ImageView.memcpy at h
  split at h
  · rename_i hc
    simp only [Option.some.injEq] at h
    subst h
    by_cases h1 : i < dstOff
    · have : ¬ (dstOff ≤ i ∧ i < dstOff + n) := by omega
      rw [if_neg this, List.getElem?_append_left (by simp; omega),
        List.getElem?_take_of_lt h1]
    · rw [List.getElem?_append_right (by simp; omega)]
      have hlen : (List.take dstOff dst).length = dstOff := by simp; omega
      rw [hlen]
      by_cases h2 : i < dstOff + n
      · rw [if_pos ⟨by omega, h2⟩, List.getElem?_append_left (by simp; omega),
          List.getElem?_take_of_lt (by omega), List.getElem?_drop]
      · have : ¬ (dstOff ≤ i ∧ i < dstOff + n) := by omega
        rw [if_neg this, List.getElem?_append_right (by simp; omega)]
        have hlen2 : (List.take n (List.drop srcOff src)).length = n := by simp; omega
        rw [hlen2, List.getElem?_drop]
        congr 1
        omega
  · exact absurd h (by simp)

theorem memcpy_isSome (dst src : List Byte) (dstOff srcOff n : Nat)
    (hs : srcOff + n ≤ src.length) (hd : dstOff + n ≤ dst.length) :
    ∃ d, ImageView.memcpy dst dstOff src srcOff n = some d := by
  unfold ImageView.memcpy
  rw [if_pos ⟨hs, hd⟩]
  exact ⟨_, rfl⟩

theorem szAdd_eq_of_lt {a b : Nat} (h : a + b < SIZE_MOD) : szAdd a b = a + b :=
  Nat.mod_eq_of_lt h

theorem cropRows_spec (src : List Byte) (sp bigStep smallStep : Nat)
    (hrow : sp + smallStep ≤ bigStep) (hsrcM : src.length < SIZE_MOD) :
    ∀ (rows bigStride smallStride : Nat) (data : List Byte),
      bigStride + rows * bigStep ≤ src.length →
      smallStride + rows * smallStep ≤ data.length →
      data.length < SIZE_MOD →
      ∃ d, ImageView.cropRows src sp bigStep smallStep rows bigStride smallStride data = some d ∧
        d.length = data.length ∧
        (∀ i, i < smallStride → d[i]? = data[i]?) ∧
        (∀ y k, y < rows → k < smallStep →
          d[smallStride + y * smallStep + k]? = src[sp + bigStride + y * bigStep + k]?) := by
  intro rows
  induction rows with
  | zero =>
    intro bigStride smallStride data _ _ _
    exact ⟨data, rfl, rfl, fun _ _ => rfl, fun y k hy _ => absurd hy (Nat.not_lt_zero y)⟩
  | succ n ih =>
    intro bigStride smallStride data hsrc hdst hdstM
    have e1 : (n + 1) * bigStep = n * bigStep + bigStep := Nat.succ_mul n bigStep
    have e2 : (n + 1) * smallStep = n * smallStep + smallStep := Nat.succ_mul n smallStep
    obtain ⟨d1, hd1⟩ := memcpy_isSome data src smallStride (sp + bigStride) smallStep
      (by omega) (by omega)
    have hlen1 := memcpy_length hd1
    have hget1 := memcpy_getElem? hd1
    have hB : szAdd bigStride bigStep = bigStride + bigStep := szAdd_eq_of_lt (by omega)
    have hS : szAdd smallStride smallStep = smallStride + smallStep :=
      szAdd_eq_of_lt (by omega)
    obtain ⟨d, hd, hlen, hlow, hrows⟩ := ih (bigStride + bigStep) (smallStride + smallStep) d1
      (by omega) (by omega) (by omega)
    refine ⟨d, ?_, by omega, ?_, ?_⟩
    · simp only [ImageView.cropRows, hd1, hB, hS]
      exact hd
    · intro i hi
      rw [hlow i (by omega), hget1 i, if_neg (by omega)]
    · intro y k hy hk
      cases y with
      | zero =>
        rw [Nat.zero_mul, Nat.zero_mul, Nat.add_zero, Nat.add_zero,
          hlow _ (by omega), hget1, if_pos ⟨by omega, by omega⟩]
        congr 1
        omega
      | succ y =>
        have := hrows y k (by omega) hk
        have e3 : (y + 1) * bigStep = y * bigStep + bigStep := Nat.succ_mul y bigStep
        have e4 : (y + 1) * smallStep = y * smallStep + smallStep := Nat.succ_mul y smallStep
        have i1 : smallStride + (y + 1) * smallStep + k =
            smallStride + smallStep + y * smallStep + k := by omega
        have i2 : sp + bigStride + (y + 1) * bigStep + k =
            sp + (bigStride + bigStep) + y * bigStep + k := by omega
        rw [i1, i2]
        exact this

theorem szMul2_mod (a b c : Nat) : szMul (szMul a b) c = (a * b * c) % SIZE_MOD := by
  unfold szMul
  simp [Nat.mul_mod, Nat.mod_mod]

theorem szMul2_eq_of_lt {a b c : Nat} (h : a * b * c < SIZE_MOD) :
    szMul (szMul a b) c = a * b * c := by
  rw [szMul2_mod, Nat.mod_eq_of_lt h]

theorem toSizeT_natCast (n : Nat) : toSizeT (n : Int) = n % SIZE_MOD := by
  unfold toSizeT
  rw [← Int.ofNat_emod]
  exact Int.toNat_ofNat _

theorem szMul_mod_left (a b : Nat) : szMul (a % SIZE_MOD) b = szMul a b := by
  unfold szMul
  simp [Nat.mul_mod, Nat.mod_mod]

theorem szMul_mod_right (a b : Nat) : szMul a (b % SIZE_MOD) = szMul a b := by
  unfold szMul
  simp [Nat.mul_mod, Nat.mod_mod]

/-- In-range coordinates of a buffer whose exact byte count fits `size_t`: the offset that
`ptr(x, y, c)` computes does not wrap, and the element lies inside the byte count. -/
theorem ptrXYC_eq (v : ImageView) (x y c : Nat) (hx : x < v.width_) (hy : y < v.height_)
    (hc : c < v.channels_)
    (hM : v.width_ * v.height_ * v.channels_ * v.element_size_ < SIZE_MOD) :
    v.ptrXYC x y c = ((y * v.width_ + x) * v.channels_ + c) * v.element_size_ ∧
    ((y * v.width_ + x) * v.channels_ + c) * v.element_size_ + v.element_size_ ≤
      v.width_ * v.height_ * v.channels_ * v.element_size_ := by
  obtain ⟨w, h, ch, es, d⟩ := v
  simp only at hx hy hc hM
  simp only [ImageView.ptrXYC]
  have b1 : y * w + x + 1 ≤ w * h := by
    have : (y + 1) * w ≤ h * w := Nat.mul_le_mul_right w hy
    rw [Nat.succ_mul] at this
    rw [Nat.mul_comm w h]
    omega
  have b2 : (y * w + x) * ch + c + 1 ≤ w * h * ch := by
    have : (y * w + x + 1) * ch ≤ w * h * ch := Nat.mul_le_mul_right ch b1
    rw [Nat.succ_mul] at this
    omega
  have b3 : ((y * w + x) * ch + c) * es + es ≤ w * h * ch * es := by
    have : ((y * w + x) * ch + c + 1) * es ≤ w * h * ch * es := Nat.mul_le_mul_right es b2
    rw [Nat.succ_mul] at this
    exact this
  refine ⟨?_, b3⟩
  rcases Nat.eq_zero_or_pos es with hes | hes
  · subst hes
    simp [szMul]
  · have k3 : w * h * ch ≤ w * h * ch * es := Nat.le_mul_of_pos_right _ hes
    have k2 : w * h ≤ w * h * ch := Nat.le_mul_of_pos_right _ (by omega)
    have e1 : szMul y w = y * w := szMul_eq_of_lt (by omega)
    have e2 : szAdd (y * w) x = y * w + x := szAdd_eq_of_lt (by omega)
    have e3 : szMul (y * w + x) ch = (y * w + x) * ch := szMul_eq_of_lt (by omega)
    have e4 : szAdd ((y * w + x) * ch) c = (y * w + x) * ch + c := szAdd_eq_of_lt (by omega)
    have e5 : szMul ((y * w + x) * ch + c) es = ((y * w + x) * ch + c) * es :=
      szMul_eq_of_lt (by omega)
    rw [e1, e2, e3, e4, e5]

theorem szMul_zero_left (b : Nat) : szMul 0 b = 0 := by
  simp [szMul]

/-- C3: for a source buffer that holds exactly `width * height * channels * element_size`
bytes (the buffer invariant of the data model, a `size_t` value) and an ROI lying inside it
(`0 <= left`, `left + roi.width() <= source.width()`, `0 <= bottom`, `top <= source.height()`,
`roi.height() = top - bottom`), `crop(roi)` returns a buffer of width `roi.width()`, height
`roi.height()` and the source's channels and element size, whose element bytes at `(x, y, c)`
are the source's element bytes at `(left + x, bottom + y, c)` for every `x < roi.width()`,
`y < roi.height()`, `c < channels`; each such element has its full `element_size` bytes. -/
theorem C3_crop (source : ImageView) (roi : strobeRectangle)
    (hinv : source.ExactSizeInv) (hfit : source.size < 2 ^ 64)
    (hl : 0 ≤ roi.left) (hw : roi.left + roi.width ≤ source.width)
    (hb : 0 ≤ roi.bottom) (ht : roi.top ≤ source.height)
    (hh : (roi.height : Int) = roi.top - roi.bottom) :
    ∃ r, source.crop roi = some r ∧ r.width = roi.width ∧ r.height = roi.height ∧
      r.channels = source.channels ∧ r.element_size = source.element_size ∧
      ∀ x y c, x < roi.width → y < roi.height → c < source.channels →
        r.elementBytes x y c =
            source.elementBytes (roi.left.toNat + x) (roi.bottom.toNat + y) c ∧
          (r.elementBytes x y c).length = source.element_size := by
  obtain ⟨W, H, C, E, D⟩ := source
  obtain ⟨l, rt, b, t, rw, rh⟩ := roi
  simp only [ImageView.ExactSizeInv, ImageView.size, ImageView.width, ImageView.height,
    ImageView.channels, ImageView.element_size] at hinv hfit hl hw hb ht hh ⊢
  obtain ⟨ln, rfl⟩ := Int.eq_ofNat_of_zero_le hl
  obtain ⟨bn, rfl⟩ := Int.eq_ofNat_of_zero_le hb
  have hrows : (t - (bn : Int)).toNat = rh := by rw [← hh]; exact Int.toNat_ofNat rh
  have lw : ln + rw ≤ W := by omega
  have bh : bn + rh ≤ H := by omega
  simp only [Int.toNat_ofNat]
  rcases Nat.eq_zero_or_pos rh with h0 | hpos
  · subst h0
    refine ⟨{ width_ := rw, height_ := 0, channels_ := C, element_size_ := E, data_ := [] },
      ?_, rfl, rfl, rfl, rfl, ?_⟩
    · simp [ImageView.crop, ImageView.cropCtor, hrows, ImageView.cropRows, szMul,
        ImageView.width, ImageView.height, ImageView.channels, ImageView.element_size]
    · intro x y c _ hy _
      exact absurd hy (Nat.not_lt_zero y)
  · have hM : W * H * C * E < SIZE_MOD := by rw [← hinv]; exact hfit
    have hH : 1 ≤ H := by omega
    have eWH : W * H * C * E = H * (W * C * E) := by ring
    have hWCE : W * C * E ≤ W * H * C * E := by
      rw [eWH]; exact Nat.le_mul_of_pos_left _ hH
    have hbig : szMul (szMul W C) E = W * C * E := szMul2_eq_of_lt (by omega)
    have hrwW : rw * C * E ≤ W * C * E :=
      Nat.mul_le_mul_right E (Nat.mul_le_mul_right C (by omega))
    have hsmall : szMul (szMul rw C) E = rw * C * E := szMul2_eq_of_lt (by omega)
    have hlnW : ln * C * E + rw * C * E ≤ W * C * E := by
      have : (ln + rw) * C * E ≤ W * C * E :=
        Nat.mul_le_mul_right E (Nat.mul_le_mul_right C lw)
      calc ln * C * E + rw * C * E = (ln + rw) * C * E := by ring
        _ ≤ W * C * E := this
    have hsp : szMul (szMul (toSizeT (ln : Int)) C) E = ln * C * E := by
      rw [toSizeT_natCast, szMul_mod_left]
      exact szMul2_eq_of_lt (by omega)
    have hbH : W * C * E * bn + rh * (W * C * E) ≤ W * H * C * E := by
      have : (bn + rh) * (W * C * E) ≤ H * (W * C * E) := Nat.mul_le_mul_right _ bh
      calc W * C * E * bn + rh * (W * C * E) = (bn + rh) * (W * C * E) := by ring
        _ ≤ H * (W * C * E) := this
        _ = W * H * C * E := by ring
    have hstride : szMul (W * C * E) (toSizeT (bn : Int)) = W * C * E * bn := by
      rw [toSizeT_natCast, szMul_mod_right]
      exact szMul_eq_of_lt (by omega)
    have hNle : rw * rh * C * E ≤ W * H * C * E := by
      have h1 : rw * rh ≤ W * H := Nat.mul_le_mul (by omega) (by omega)
      exact Nat.mul_le_mul_right E (Nat.mul_le_mul_right C h1)
    have hN : szMul (szMul (szMul rw rh) C) E = rw * rh * C * E :=
      szMul3_eq_of_lt (by omega)
    obtain ⟨d, hd, hlen, -, hget⟩ := cropRows_spec D (ln * C * E) (W * C * E) (rw * C * E)
      hlnW (by omega) rh (W * C * E * bn) 0 (List.replicate (rw * rh * C * E) 0)
      (by omega)
      (by
        have : rh * (rw * C * E) = rw * rh * C * E := by ring
        simp only [List.length_replicate]
        omega)
      (by simp only [List.length_replicate]; omega)
    simp only [List.length_replicate] at hlen
    refine ⟨{ width_ := rw, height_ := rh, channels_ := C, element_size_ := E, data_ := d },
      ?_, rfl, rfl, rfl, rfl, ?_⟩
    · simp only [ImageView.crop, ImageView.cropCtor, ImageView.width, ImageView.height,
        ImageView.channels, ImageView.element_size, hrows, hbig, hsmall, hsp, hstride, hN,
        ImageView.ptr, szMul_zero_left, Nat.zero_add]
      rw [hd]
    · intro x y c hx hy hc
      obtain ⟨er, ebr⟩ := ptrXYC_eq
        { width_ := rw, height_ := rh, channels_ := C, element_size_ := E, data_ := d }
        x y c hx hy hc (by show rw * rh * C * E < SIZE_MOD; omega)
      obtain ⟨es, -⟩ := ptrXYC_eq
        { width_ := W, height_ := H, channels_ := C, element_size_ := E, data_ := D }
        (ln + x) (bn + y) c (by show ln + x < W; omega) (by show bn + y < H; omega) hc hM
      simp only at er ebr es
      simp only [ImageView.elementBytes, er, es]
      constructor
      · apply List.ext_getElem?
        intro k
        rw [List.getElem?_take, List.getElem?_take, List.getElem?_drop, List.getElem?_drop]
        by_cases hk : k < E
        · rw [if_pos hk, if_pos hk]
          have hk2 : (x * C + c) * E + k < rw * C * E := by
            have h1 : x * C + c + 1 ≤ rw * C := by
              have : (x + 1) * C ≤ rw * C := Nat.mul_le_mul_right C hx
              rw [Nat.succ_mul] at this
              omega
            have h2 : (x * C + c + 1) * E ≤ rw * C * E := Nat.mul_le_mul_right E h1
            rw [Nat.succ_mul] at h2
            omega
          have := hget y ((x * C + c) * E + k) hy hk2
          have i1 : ((y * rw + x) * C + c) * E + k =
              0 + y * (rw * C * E) + ((x * C + c) * E + k) := by ring
          have i2 : (((bn + y) * W + (ln + x)) * C + c) * E + k =
              ln * C * E + W * C * E * bn + y * (W * C * E) + ((x * C + c) * E + k) := by ring
          rw [i1, i2]
          exact this
        · rw [if_neg hk, if_neg hk]
      · rw [List.length_take, List.length_drop]
        omega

/-- C3 at a concrete input: the 3 x 2 source of 2-byte elements, cropped to the 2 x 1 region
at column 1, row 1. -/
theorem C3_crop_witness :
    ∃ r, ImageView.crop
        { width_ := 3, height_ := 2, channels_ := 1, element_size_ := 2,
          data_ := [1, 2, 3, 4, 5, 6, 7, 8, 9, 10, 11, 12] }
        { left := 1, right := 3, bottom := 1, top := 2, width := 2, height := 1 } = some r ∧
      r.width = 2 ∧ r.height = 1 ∧ r.channels = 1 ∧ r.element_size = 2 ∧
      ∀ x y c, x < 2 → y < 1 → c < 1 →
        r.elementBytes x y c =
            ImageView.elementBytes
              { width_ := 3, height_ := 2, channels_ := 1, element_size_ := 2,
                data_ := [1, 2, 3, 4, 5, 6, 7, 8, 9, 10, 11, 12] } (1 + x) (1 + y) c ∧
          (r.elementBytes x y c).length = 2 :=
  C3_crop
    { width_ := 3, height_ := 2, channels_ := 1, element_size_ := 2,
      data_ := [1, 2, 3, 4, 5, 6, 7, 8, 9, 10, 11, 12] }
    { left := 1, right := 3, bottom := 1, top := 2, width := 2, height := 1 }
    (by decide) (by decide) (by decide) (by decide) (by decide) (by decide) (by decide)

/-! ### C4: independence of a copy or crop from its source -/

theorem write_other {s s1 : Store} {obj : Nat} {w : ImageView.TypedWrite}
    (h : s.write obj w = some s1) (i : Nat) (hi : i ≠ obj) : s1[i]? = s[i]? := by
  unfold Store.write at h
  split at h
  · exact absurd h (by simp)
  · split at h
    · exact absurd h (by simp)
    · simp only [Option.some.injEq] at h
      subst h
      exact List.getElem?_set_ne (Ne.symm hi)

theorem writes_other (obj i : Nat) (hi : i ≠ obj) :
    ∀ (ws : List ImageView.TypedWrite) (s s1 : Store),
      s.writes obj ws = some s1 → s1[i]? = s[i]? := by
  intro ws
  induction ws with
  | nil =>
    intro s s1 h
    simp only [Store.writes, Option.some.injEq] at h
    rw [h]
  | cons w ws ih =>
    intro s s1 h
    simp only [Store.writes] at h
    split at h
    · exact absurd h (by simp)
    · rename_i s0 hw
      rw [ih s0 s1 h, write_other hw i hi]

/-- C4: for a live source object `i` of a store, copy construction succeeds and yields a new
object `j` distinct from `i` that holds the source's attributes and bytes; crop, whenever it
returns, yields a new object `j` distinct from `i`. In both cases the source object is
unchanged (dimensions and bytes), and it is still unchanged after any sequence of typed
writes through the new object. -/
theorem C4_independent (s : Store) (i : Nat) (src : ImageView) (hi : s[i]? = some src) :
    (∃ s1 j, s.copyConstruct i = some (s1, j) ∧ j ≠ i ∧
      s1[j]? = some (ImageView.copyCtor src) ∧ s1[i]? = some src ∧
      ∀ ws s2, s1.writes j ws = some s2 → s2[i]? = some src) ∧
    (∀ roi s1 j, s.crop i roi = some (s1, j) → j ≠ i ∧
      s1[j]? = src.crop roi ∧ s1[i]? = some src ∧
      ∀ ws s2, s1.writes j ws = some s2 → s2[i]? = some src) := by
  have hlt : i < s.length := (List.getElem?_eq_some.mp hi).1
  have hne : s.length ≠ i := by omega
  constructor
  · refine ⟨s ++ [ImageView.copyCtor src], s.length, ?_, hne, ?_, ?_, ?_⟩
    · simp only [Store.copyConstruct, hi]
    · simp
    · rw [List.getElem?_append_left hlt, hi]
    · intro ws s2 h
      rw [writes_other s.length i (Ne.symm hne) ws _ s2 h, List.getElem?_append_left hlt, hi]
  · intro roi s1 j h
    simp only [Store.crop, hi] at h
    split at h
    · exact absurd h (by simp)
    · rename_i r hr
      simp only [Option.some.injEq, Prod.mk.injEq] at h
      obtain ⟨rfl, rfl⟩ := h
      refine ⟨hne, ?_, ?_, ?_⟩
      · rw [hr]; simp
      · rw [List.getElem?_append_left hlt, hi]
      · intro ws s2 h
        rw [writes_other s.length i (Ne.symm hne) ws _ s2 h, List.getElem?_append_left hlt, hi]

/-- C4 at a concrete input: a one-object store holding a 2 x 1 one-byte buffer. -/
theorem C4_independent_witness :
    (∃ s1 j, Store.copyConstruct [ImageView.ofDims 2 1 1 1] 0 = some (s1, j) ∧ j ≠ 0 ∧
      s1[j]? = some (ImageView.copyCtor (ImageView.ofDims 2 1 1 1)) ∧
      s1[0]? = some (ImageView.ofDims 2 1 1 1) ∧
      ∀ ws s2, s1.writes j ws = some s2 → s2[0]? = some (ImageView.ofDims 2 1 1 1)) ∧
    (∀ roi s1 j, Store.crop [ImageView.ofDims 2 1 1 1] 0 roi = some (s1, j) → j ≠ 0 ∧
      s1[j]? = (ImageView.ofDims 2 1 1 1).crop roi ∧
      s1[0]? = some (ImageView.ofDims 2 1 1 1) ∧
      ∀ ws s2, s1.writes j ws = some s2 → s2[0]? = some (ImageView.ofDims 2 1 1 1)) :=
  C4_independent [ImageView.ofDims 2 1 1 1] 0 (ImageView.ofDims 2 1 1 1) rfl

/-- A run of C4: the source `[0, 0]` is copied and cropped, byte `7` is written through the
copy at `(1, 0, 0)` and through the crop at index `0`; the source still reads `[0, 0]`. -/
theorem C4_run_example :
    (Store.copyConstruct [ImageView.ofDims 2 1 1 1] 0).bind
        (fun p => (p.1.writes p.2 [.xyc 1 0 0 [7]]).map (fun s2 => s2.map ImageView.data_)) =
      some [[0, 0], [0, 7]] ∧
    (Store.crop [ImageView.ofDims 2 1 1 1] 0
          { left := 1, right := 2, bottom := 0, top := 1, width := 1, height := 1 }).bind
        (fun p => (p.1.writes p.2 [.flat 0 [7]]).map (fun s2 => s2.map ImageView.data_)) =
      some [[0, 0], [7]] := by
  decide

/-! ### C5: move construction and move assignment -/

/-- C5: for a live object `b` of a store, move-constructing a new object from it, or
move-assigning another live object from it, gives the destination exactly `b`'s former
width, height, channels, element size and bytes, and leaves `b` with
`width = height = channels = element_size = 0` and `size() = 0`. -/
theorem C5_move (s : Store) (j : Nat) (b : ImageView) (hb : s[j]? = some b) :
    (∃ s1 n, s.moveConstruct j = some (s1, n) ∧ n ≠ j ∧ s1[n]? = some b ∧
      ∃ e, s1[j]? = some e ∧ e.width = 0 ∧ e.height = 0 ∧ e.channels = 0 ∧
        e.element_size = 0 ∧ e.size = 0) ∧
    (∀ this t, this ≠ j → s[this]? = some t →
      ∃ s1, s.moveAssign this j = some s1 ∧ s1[this]? = some b ∧
        ∃ e, s1[j]? = some e ∧ e.width = 0 ∧ e.height = 0 ∧ e.channels = 0 ∧
          e.element_size = 0 ∧ e.size = 0) := by
  have hlt : j < s.length := (List.getElem?_eq_some.mp hb).1
  constructor
  · refine ⟨s.set j (ImageView.moveCtor b).2 ++ [(ImageView.moveCtor b).1], s.length, ?_,
      by omega, ?_, (ImageView.moveCtor b).2, ?_, rfl, rfl, rfl, rfl, rfl⟩
    · simp only [Store.moveConstruct, hb]
    · rw [List.getElem?_append_right (by simp)]
      simp [ImageView.moveCtor, ImageView.width, ImageView.height, ImageView.channels,
        ImageView.element_size]
    · rw [List.getElem?_append_left (by simpa using hlt)]
      exact List.getElem?_set_self hlt
  · intro this t hne ht
    have htl : this < s.length := (List.getElem?_eq_some.mp ht).1
    refine ⟨(s.set j (ImageView.moveCtor b).2).set this
        (ImageView.swap t (ImageView.moveCtor b).1).1, ?_, ?_,
      (ImageView.moveCtor b).2, ?_, rfl, rfl, rfl, rfl, rfl⟩
    · simp only [Store.moveAssign, if_neg (Ne.symm hne), ht, hb]
    · rw [List.getElem?_set_self (by simpa using htl)]
      simp [ImageView.moveCtor, ImageView.swap, ImageView.width, ImageView.height,
        ImageView.channels, ImageView.element_size]
    · rw [List.getElem?_set_ne hne]
      exact List.getElem?_set_self hlt

/-- C5 at a concrete input: object 1 (bytes `[5, 6]`) is moved from, into a new object and
into object 0. -/
theorem C5_move_witness :
    (∃ s1 n, Store.moveConstruct [ImageView.ofDims 1 1 1 1,
        { width_ := 2, height_ := 1, channels_ := 1, element_size_ := 1, data_ := [5, 6] }] 1 =
          some (s1, n) ∧ n ≠ 1 ∧
      s1[n]? = some
        { width_ := 2, height_ := 1, channels_ := 1, element_size_ := 1, data_ := [5, 6] } ∧
      ∃ e, s1[1]? = some e ∧ e.width = 0 ∧ e.height = 0 ∧ e.channels = 0 ∧
        e.element_size = 0 ∧ e.size = 0) ∧
    (∀ this t, this ≠ 1 →
      [ImageView.ofDims 1 1 1 1,
        ({ width_ := 2, height_ := 1, channels_ := 1, element_size_ := 1, data_ := [5, 6] } :
          ImageView)][this]? = some t →
      ∃ s1, Store.moveAssign [ImageView.ofDims 1 1 1 1,
          { width_ := 2, height_ := 1, channels_ := 1, element_size_ := 1, data_ := [5, 6] }]
            this 1 = some s1 ∧
        s1[this]? = some
          { width_ := 2, height_ := 1, channels_ := 1, element_size_ := 1, data_ := [5, 6] } ∧
        ∃ e, s1[1]? = some e ∧ e.width = 0 ∧ e.height = 0 ∧ e.channels = 0 ∧
          e.element_size = 0 ∧ e.size = 0) :=
  C5_move _ 1 _ rfl

/-! ### C6: reinit -/

/-- C6 (as stated, refuted): `reinit(2 ^ 32, 2 ^ 32)` on the 1 x 1 buffer holding the byte `7`
(one channel, element size 1) leaves no bytes at all, while `w * h * c * es` is `2 ^ 64`, more
than the one byte held, so that the claim asks for `7` followed by zero bytes. -/
theorem C6_reinit_counterexample :
    (ImageView.reinit
      { width_ := 1, height_ := 1, channels_ := 1, element_size_ := 1, data_ := [7] }
      (2 ^ 32) (2 ^ 32)).data_ = [] ∧
    (ImageView.reinit
      { width_ := 1, height_ := 1, channels_ := 1, element_size_ := 1, data_ := [7] }
      (2 ^ 32) (2 ^ 32)).data_.length ≠ 2 ^ 32 * 2 ^ 32 * 1 * 1 := by
  decide

/-- C6 (amended): for a buffer with channels `c`, element size `es` and bytes `d`,
`reinit(w, h)` sets width to `w` and height to `h`, keeps `c` and `es`, and leaves bytes of
length `n`, where `n` is `w * h * c * es` reduced modulo `2 ^ 64` (so `n = w * h * c * es`
whenever that product is below `2 ^ 64`): the first `n` bytes of `d` when `n <= |d|`, and `d`
followed by `n - |d|` zero bytes when `n > |d|`. -/
theorem C6_reinit (v : ImageView) (w h n : Nat)
    (hn : n = (w * h * v.channels * v.element_size) % 2 ^ 64) :
    (v.reinit w h).width = w ∧ (v.reinit w h).height = h ∧
    (v.reinit w h).channels = v.channels ∧ (v.reinit w h).element_size = v.element_size ∧
    (v.reinit w h).data_.length = n ∧
    (n ≤ v.data_.length → (v.reinit w h).data_ = v.data_.take n) ∧
    (v.data_.length < n →
      (v.reinit w h).data_ = v.data_ ++ List.replicate (n - v.data_.length) 0) ∧
    (w * h * v.channels * v.element_size < 2 ^ 64 → n = w * h * v.channels * v.element_size) := by
  have hsz : szMul (szMul (szMul w h) v.channels_) v.element_size_ = n := by
    rw [hn]; exact szMul3_mod w h _ _
  refine ⟨rfl, rfl, rfl, rfl, ?_, ?_, ?_, ?_⟩
  · simp only [ImageView.reinit, hsz, vectorResize_length]
  · intro hle
    simp only [ImageView.reinit, hsz, ImageView.vectorResize]
    rw [Nat.sub_eq_zero_of_le hle]
    simp
  · intro hlt
    simp only [ImageView.reinit, hsz, ImageView.vectorResize]
    rw [List.take_of_length_le (by omega)]
  · intro hlt
    rw [hn, Nat.mod_eq_of_lt hlt]

/-- C6 at a concrete input: a 2 x 1 buffer `[1, 2]` grown to 2 x 2 reads `[1, 2, 0, 0]`. -/
theorem C6_reinit_witness :
    (ImageView.reinit
      { width_ := 2, height_ := 1, channels_ := 1, element_size_ := 1, data_ := [1, 2] }
      2 2).data_ = [1, 2] ++ List.replicate (4 - 2) 0 :=
  (C6_reinit
    { width_ := 2, height_ := 1, channels_ := 1, element_size_ := 1, data_ := [1, 2] }
    2 2 4 (by decide)).2.2.2.2.2.2.1 (by decide)

/-! ### C7: swap and copy assignment -/

/-- C7: `swap` exchanges all five attributes of two live objects `a` (at `this`) and `b` (at
`rhs`); copy assignment `this = rhs` leaves object `this` with `b`'s width, height, channels,
element size and bytes, leaves `rhs` (and every other object) unchanged, and self-assignment
leaves the store, so the object, unchanged. -/
theorem C7_swap_assign (s : Store) (this rhs : Nat) (a b : ImageView)
    (ha : s[this]? = some a) (hb : s[rhs]? = some b) :
    ((ImageView.swap a b).1 = b ∧ (ImageView.swap a b).2 = a) ∧
    (∃ s1, s.swap this rhs = some s1 ∧ s1[this]? = some b ∧ s1[rhs]? = some a ∧
      ∀ k, k ≠ this → k ≠ rhs → s1[k]? = s[k]?) ∧
    (∃ s1, s.copyAssign this rhs = some s1 ∧ s1[this]? = some b ∧ s1[rhs]? = some b ∧
      ∀ k, k ≠ this → s1[k]? = s[k]?) ∧
    s.copyAssign this this = some s := by
  have hlt : this < s.length := (List.getElem?_eq_some.mp ha).1
  have hlr : rhs < s.length := (List.getElem?_eq_some.mp hb).1
  refine ⟨⟨rfl, rfl⟩, ?_, ?_, ?_⟩
  · refine ⟨(s.set this (ImageView.swap a b).1).set rhs (ImageView.swap a b).2, ?_, ?_, ?_, ?_⟩
    · simp only [Store.swap, ha, hb]
    · by_cases h : rhs = this
      · subst h
        have hab : a = b := by rw [ha] at hb; exact Option.some.inj hb
        subst hab
        rw [List.getElem?_set_self (by simpa using hlt)]
        rfl
      · rw [List.getElem?_set_ne h, List.getElem?_set_self hlt]
        rfl
    · rw [List.getElem?_set_self (by simpa using hlr)]
      rfl
    · intro k hk1 hk2
      rw [List.getElem?_set_ne (Ne.symm hk2), List.getElem?_set_ne (Ne.symm hk1)]
  · by_cases h : rhs = this
    · subst h
      have hab : a = b := by rw [ha] at hb; exact Option.some.inj hb
      subst hab
      exact ⟨s, by simp [Store.copyAssign], ha, ha, fun _ _ => rfl⟩
    · refine ⟨s.set this (ImageView.swap a (ImageView.copyCtor b)).1, ?_, ?_, ?_, ?_⟩
      · simp only [Store.copyAssign, if_neg h, ha, hb]
      · rw [List.getElem?_set_self hlt]
        rfl
      · rw [List.getElem?_set_ne (Ne.symm h), hb]
      · intro k hk
        rw [List.getElem?_set_ne (Ne.symm hk)]
  · simp [Store.copyAssign]

/-- C7 at a concrete input: objects 0 (`[1]`) and 1 (`[5, 6]`) of a two-object store. -/
theorem C7_swap_assign_witness :
    (∃ s1, Store.copyAssign
        [{ width_ := 1, height_ := 1, channels_ := 1, element_size_ := 1, data_ := [1] },
         { width_ := 2, height_ := 1, channels_ := 1, element_size_ := 1, data_ := [5, 6] }]
        0 1 = some s1 ∧
      s1[0]? = some
        { width_ := 2, height_ := 1, channels_ := 1, element_size_ := 1, data_ := [5, 6] } ∧
      s1[1]? = some
        { width_ := 2, height_ := 1, channels_ := 1, element_size_ := 1, data_ := [5, 6] } ∧
      ∀ k, k ≠ 0 → s1[k]? =
        ([{ width_ := 1, height_ := 1, channels_ := 1, element_size_ := 1, data_ := [1] },
          { width_ := 2, height_ := 1, channels_ := 1, element_size_ := 1, data_ := [5, 6] }] :
            Store)[k]?) :=
  (C7_swap_assign _ 0 1 _ _ rfl rfl).2.2.1

/-! ### C8: the binary field operators -/

section ComplexImageLemmas

variable {S : Type}

theorem transform_spec (op : S → S → S) :
    ∀ (a b : List S), a.length ≤ b.length →
      ∃ d, ComplexImage.transform op a b = some d ∧ d.length = a.length ∧
        ∀ (i : Nat) (x y : S), a[i]? = some x → b[i]? = some y → d[i]? = some (op x y) := by
  intro a
  induction a with
  | nil =>
    intro b _
    exact ⟨[], by simp [ComplexImage.transform], rfl, fun i x y h => by simp at h⟩
  | cons l ls ih =>
    intro b hb
    cases b with
    | nil => simp at hb
    | cons r rs =>
      obtain ⟨t, ht, hlen, hget⟩ := ih rs (by simpa using hb)
      refine ⟨op l r :: t, by simp [ComplexImage.transform, ht], by simp [hlen], ?_⟩
      intro i x y hx hy
      cases i with
      | zero =>
        simp only [List.getElem?_cons_zero, Option.some.injEq] at hx hy ⊢
        rw [hx, hy]
      | succ i =>
        simp only [List.getElem?_cons_succ] at hx hy ⊢
        exact hget i x y hx hy

theorem transform_length (op : S → S → S) :
    ∀ (a b d : List S), ComplexImage.transform op a b = some d → d.length = a.length := by
  intro a
  induction a with
  | nil =>
    intro b d h
    simp only [ComplexImage.transform, Option.some.injEq] at h
    rw [← h]
  | cons l ls ih =>
    intro b d h
    cases b with
    | nil => simp [ComplexImage.transform] at h
    | cons r rs =>
      simp only [ComplexImage.transform] at h
      split at h
      · exact absurd h (by simp)
      · rename_i t ht
        simp only [Option.some.injEq] at h
        rw [← h, List.length_cons, List.length_cons, ih rs t ht]

theorem ComplexOperator_assert (op : S → S → S) (A B : ComplexImage S)
    (h : (A.width, A.height) ≠ (B.width, B.height)) :
    ComplexImage.ComplexOperator op A B = .assertFailed := by
  unfold ComplexImage.ComplexOperator
  rw [if_neg]
  rintro ⟨h1, h2⟩
  exact h (by simp only [ComplexImage.width, ComplexImage.height, h1, h2])

theorem ComplexOperator_ok (op : S → S → S) (A B : ComplexImage S)
    (h : (A.width, A.height) = (B.width, B.height)) (hle : A.size ≤ B.size) :
    ∃ R, ComplexImage.ComplexOperator op A B = .ok R ∧
      R.width = A.width ∧ R.height = A.height ∧ R.size = A.size ∧
      ∀ (i : Nat) (a b : S), A.data_[i]? = some a → B.data_[i]? = some b → R.data_[i]? = some (op a b) := by
  simp only [ComplexImage.width, ComplexImage.height, Prod.mk.injEq] at h
  obtain ⟨d, hd, hlen, hget⟩ := transform_spec op A.data_ B.data_ hle
  refine ⟨{ width_ := A.width_, height_ := A.height_, data_ := d }, ?_, rfl, rfl, hlen, hget⟩
  unfold ComplexImage.ComplexOperator
  rw [if_pos ⟨h.1.symm, h.2.symm⟩]
  simp only [ComplexImage.copyCtor, hd]

theorem size_eq_of_sizeInv {A B : ComplexImage S} (hA : A.SizeInv) (hB : B.SizeInv)
    (h : (A.width, A.height) = (B.width, B.height)) : A.size = B.size := by
  simp only [Prod.mk.injEq] at h
  rw [hA, hB, h.1, h.2]

end ComplexImageLemmas

/-- C8: for fields `A` and `B` holding `width * height` samples each, `A + B`, `A * B`,
`A / B` and `A.multiplying(B)` all fail their `assert` when `(A.width, A.height)` differs from
`(B.width, B.height)`; when the dimensions are equal each returns a field of those dimensions
and of `A`'s sample count whose sample `i` is `A[i] + B[i]`, `A[i] * B[i]`, `A[i] / B[i]` and
`A[i] * B[i]` respectively, for every index `i` (`A` and `B` have the same indices). -/
theorem C8_binary_operators {S : Type} [Add S] [Mul S] [Div S] (A B : ComplexImage S)
    (hA : A.SizeInv) (hB : B.SizeInv) :
    ((A.width, A.height) ≠ (B.width, B.height) →
      A.add B = .assertFailed ∧ A.mul B = .assertFailed ∧ A.div B = .assertFailed ∧
      A.multiplying B = .assertFailed) ∧
    ((A.width, A.height) = (B.width, B.height) →
      ∃ Ra Rm Rd Rz, A.add B = .ok Ra ∧ A.mul B = .ok Rm ∧ A.div B = .ok Rd ∧
        A.multiplying B = .ok Rz ∧
        (Ra.width, Ra.height) = (A.width, A.height) ∧
        (Rm.width, Rm.height) = (A.width, A.height) ∧
        (Rd.width, Rd.height) = (A.width, A.height) ∧
        (Rz.width, Rz.height) = (A.width, A.height) ∧
        Ra.size = A.size ∧ Rm.size = A.size ∧ Rd.size = A.size ∧ Rz.size = A.size ∧
        A.size = B.size ∧
        ∀ (i : Nat) (a b : S), A.data_[i]? = some a → B.data_[i]? = some b →
          Ra.data_[i]? = some (a + b) ∧ Rm.data_[i]? = some (a * b) ∧
          Rd.data_[i]? = some (a / b) ∧ Rz.data_[i]? = some (a * b)) := by
  constructor
  · intro h
    exact ⟨ComplexOperator_assert _ A B h, ComplexOperator_assert _ A B h,
      ComplexOperator_assert _ A B h, ComplexOperator_assert _ A B h⟩
  · intro h
    have hsz := size_eq_of_sizeInv hA hB h
    obtain ⟨Ra, ha, wa, ha2, sa, ga⟩ :=
      ComplexOperator_ok (fun x y : S => x + y) A B h (by omega)
    obtain ⟨Rm, hm, wm, hm2, sm, gm⟩ :=
      ComplexOperator_ok (fun x y : S => x * y) A B h (by omega)
    obtain ⟨Rd, hd, wd, hd2, sd, gd⟩ :=
      ComplexOperator_ok (fun x y : S => x / y) A B h (by omega)
    refine ⟨Ra, Rm, Rd, Rm, ha, hm, hd, hm, ?_, ?_, ?_, ?_, sa, sm, sd, sm, hsz, ?_⟩
    · rw [wa, ha2]
    · rw [wm, hm2]
    · rw [wd, hd2]
    · rw [wm, hm2]
    · intro i a b hia hib
      exact ⟨ga i a b hia hib, gm i a b hia hib, gd i a b hia hib, gm i a b hia hib⟩

/-- C8 at a concrete input: 2 x 1 integer-valued fields, against a 1 x 2 field (the asserts
fail) and against a 2 x 1 field (the four results). -/
theorem C8_binary_operators_witness :
    (ComplexImage.add (ComplexImage.ofVector [6, 8] 2 1)
        (ComplexImage.ofVector [(3 : Int), 2] 1 2) = .assertFailed ∧
      ComplexImage.mul (ComplexImage.ofVector [6, 8] 2 1)
        (ComplexImage.ofVector [(3 : Int), 2] 1 2) = .assertFailed ∧
      ComplexImage.div (ComplexImage.ofVector [6, 8] 2 1)
        (ComplexImage.ofVector [(3 : Int), 2] 1 2) = .assertFailed ∧
      ComplexImage.multiplying (ComplexImage.ofVector [6, 8] 2 1)
        (ComplexImage.ofVector [(3 : Int), 2] 1 2) = .assertFailed) ∧
    ComplexImage.add (ComplexImage.ofVector [6, 8] 2 1) (ComplexImage.ofVector [3, 2] 2 1) =
      .ok (ComplexImage.ofVector [(9 : Int), 10] 2 1) ∧
    ComplexImage.mul (ComplexImage.ofVector [6, 8] 2 1) (ComplexImage.ofVector [3, 2] 2 1) =
      .ok (ComplexImage.ofVector [(18 : Int), 16] 2 1) ∧
    ComplexImage.div (ComplexImage.ofVector [6, 8] 2 1) (ComplexImage.ofVector [3, 2] 2 1) =
      .ok (ComplexImage.ofVector [(2 : Int), 4] 2 1) ∧
    ComplexImage.multiplying (ComplexImage.ofVector [6, 8] 2 1)
        (ComplexImage.ofVector [3, 2] 2 1) =
      .ok (ComplexImage.ofVector [(18 : Int), 16] 2 1) :=
  ⟨(C8_binary_operators (ComplexImage.ofVector [(6 : Int), 8] 2 1)
      (ComplexImage.ofVector [(3 : Int), 2] 1 2) rfl rfl).1 (by decide),
    by decide, by decide, by decide, by decide⟩

/-! ### C9: the size predicate of ComplexImage -/

section ComplexImageInv

variable {S F : Type}

theorem fillReal_length [Zero F] :
    ∀ (d : List (Cplx F)) (input : List F) (r : List (Cplx F)),
      ComplexImage.fillReal d input = some r → r.length = d.length := by
  intro d
  induction d with
  | nil =>
    intro input r h
    simp only [ComplexImage.fillReal, Option.some.injEq] at h
    rw [← h]
  | cons x xs ih =>
    intro input r h
    cases input with
    | nil => simp [ComplexImage.fillReal] at h
    | cons y ys =>
      simp only [ComplexImage.fillReal] at h
      split at h
      · exact absurd h (by simp)
      · rename_i t ht
        simp only [Option.some.injEq] at h
        rw [← h, List.length_cons, List.length_cons, ih ys t ht]

theorem ComplexOperator_shape (op : S → S → S) (A B R : ComplexImage S)
    (h : ComplexImage.ComplexOperator op A B = .ok R) :
    R.width = A.width ∧ R.height = A.height ∧ R.size = A.size := by
  unfold ComplexImage.ComplexOperator at h
  split at h
  · split at h
    · exact absurd h (by simp)
    · rename_i d hd
      simp only [Outcome.ok.injEq] at h
      subst h
      exact ⟨rfl, rfl, transform_length op _ _ _ hd⟩
  · exact absurd h (by simp)

theorem sizeInv_of_shape {A R : ComplexImage S} (hA : A.SizeInv)
    (h : R.width = A.width ∧ R.height = A.height ∧ R.size = A.size) : R.SizeInv := by
  unfold ComplexImage.SizeInv at hA ⊢
  rw [h.1, h.2.1, h.2.2, hA]

theorem ComplexOperatorConst_shape (op : S → S) (A : ComplexImage S) :
    (ComplexImage.ComplexOperatorConst op A).width = A.width ∧
    (ComplexImage.ComplexOperatorConst op A).height = A.height ∧
    (ComplexImage.ComplexOperatorConst op A).size = A.size :=
  ⟨rfl, rfl, by simp [ComplexImage.ComplexOperatorConst, ComplexImage.size,
    ComplexImage.copyCtor]⟩

theorem sumOverChannels_member_ok [Add S] (A : ComplexImage S) :
    ∃ R, A.sumOverChannels = .ok R ∧ R.width = A.width ∧ R.height = A.height ∧
      R.size = A.size ∧
      ∀ (i : Nat) (a : S), A.data_[i]? = some a → R.data_[i]? = some (a + a) := by
  obtain ⟨d, hd, hlen, hget⟩ :=
    transform_spec (fun a b : S => a + b) A.data_ A.data_ (Nat.le_refl _)
  refine ⟨{ width_ := A.width_, height_ := A.height_, data_ := d }, ?_, rfl, rfl, hlen,
    fun i a h => hget i a a h h⟩
  simp only [ComplexImage.sumOverChannels, hd]

theorem sumLoop_shape [Add S] :
    ∀ (rest : List (ComplexImage S)) (acc R : ComplexImage S),
      ComplexImage.sumLoop acc rest = .ok R →
      R.width = acc.width ∧ R.height = acc.height ∧ R.size = acc.size := by
  intro rest
  induction rest with
  | nil =>
    intro acc R h
    simp only [ComplexImage.sumLoop, Outcome.ok.injEq] at h
    subst h
    exact ⟨rfl, rfl, rfl⟩
  | cons x xs ih =>
    intro acc R h
    simp only [ComplexImage.sumLoop] at h
    split at h
    · exact absurd h (by simp)
    · rename_i d hd
      obtain ⟨h1, h2, h3⟩ := ih _ R h
      exact ⟨h1, h2, by rw [h3]; exact transform_length _ _ _ _ hd⟩

end ComplexImageInv

/-- C9 (as stated, refuted): the sample-sequence constructor given one sample and dimensions
2 x 2 builds a field with `size() = 1`, not `4`; `deserialize` of a stream holding width 2,
height 2 and no samples takes the default field, which satisfies the predicate, to one that
does not; `ComplexImage(2 ^ 32, 2 ^ 32)` has `size() = 0`. -/
theorem C9_sizeInv_counterexample :
    ¬ (ComplexImage.ofVector [({ re := 1, im := 0 } : Cplx Int)] 2 2).SizeInv ∧
    (ComplexImage.default : ComplexImage (Cplx Int)).SizeInv ∧
    ¬ (ComplexImage.deserialize (ComplexImage.default : ComplexImage (Cplx Int)) 2 2 []).SizeInv ∧
    ¬ (ComplexImage.ofDims (2 ^ 32) (2 ^ 32) : ComplexImage (Cplx Int)).SizeInv := by
  refine ⟨by decide, by decide, by decide, ?_⟩
  simp [ComplexImage.SizeInv, ComplexImage.ofDims, ComplexImage.size, ComplexImage.width,
    ComplexImage.height, szMul, SIZE_MOD]

/-- C9 (amended): `size() = width() * height()` holds after the default constructor and after
`clear`; after the dimension constructor and the real-array constructor `size()` is
`width * height` reduced modulo `2 ^ 64`, so the predicate holds whenever `width * height` is
below `2 ^ 64`; after the sample-sequence constructor and after `deserialize` it holds exactly
when the sequence given, or read from the stream, has `width * height` samples; it is preserved
by copy and swap, and every field returned by `+`, `*`, `/`, `multiplying`, the scalar `*` and
`+`, `squareMagnitude`, `conjugate` and both `sumOverChannels` has it when the (first) left
operand has. -/
theorem C9_sizeInv {F : Type} [Zero F] [Add F] [Mul F] [Neg F]
    [Mul (Cplx F)] [Div (Cplx F)] :
    (ComplexImage.default : ComplexImage (Cplx F)).SizeInv ∧
    (∀ A : ComplexImage (Cplx F), A.clear.SizeInv) ∧
    (∀ w h : Nat, (ComplexImage.ofDims w h : ComplexImage (Cplx F)).size = (w * h) % 2 ^ 64 ∧
      (w * h < 2 ^ 64 → (ComplexImage.ofDims w h : ComplexImage (Cplx F)).SizeInv)) ∧
    (∀ (input : List F) (w h : Nat) (R : ComplexImage (Cplx F)),
      ComplexImage.ofReal input w h = .ok R →
        R.size = (w * h) % 2 ^ 64 ∧ (w * h < 2 ^ 64 → R.SizeInv)) ∧
    (∀ (input : List (Cplx F)) (w h : Nat),
      (ComplexImage.ofVector input w h).SizeInv ↔ input.length = w * h) ∧
    (∀ (A : ComplexImage (Cplx F)) (w h : Nat) (d : List (Cplx F)),
      (A.deserialize w h d).SizeInv ↔ d.length = w * h) ∧
    (∀ A : ComplexImage (Cplx F), A.SizeInv → (ComplexImage.copyCtor A).SizeInv) ∧
    (∀ A B : ComplexImage (Cplx F), A.SizeInv → B.SizeInv →
      (ComplexImage.swap A B).1.SizeInv ∧ (ComplexImage.swap A B).2.SizeInv) ∧
    (∀ A B R : ComplexImage (Cplx F), A.SizeInv →
      (A.add B = .ok R ∨ A.mul B = .ok R ∨ A.div B = .ok R ∨ A.multiplying B = .ok R) →
        R.SizeInv) ∧
    (∀ (A : ComplexImage (Cplx F)) (x : F), A.SizeInv →
      (A.mulScalar x).SizeInv ∧ (A.addScalar x).SizeInv ∧ A.squareMagnitude.SizeInv ∧
        A.conjugate.SizeInv) ∧
    (∀ A : ComplexImage (Cplx F), A.SizeInv → ∃ R, A.sumOverChannels = .ok R ∧ R.SizeInv) ∧
    (∀ (first : ComplexImage (Cplx F)) (rest : List (ComplexImage (Cplx F)))
      (R : ComplexImage (Cplx F)), first.SizeInv →
        sumOverChannels (first :: rest) = .ok R → R.SizeInv) := by
  refine ⟨rfl, fun _ => rfl, ?_, ?_, ?_, ?_, fun _ h => h, fun _ _ hA hB => ⟨hB, hA⟩,
    ?_, ?_, ?_, ?_⟩
  · intro w h
    have hs : (ComplexImage.ofDims w h : ComplexImage (Cplx F)).size = (w * h) % 2 ^ 64 := by
      simp [ComplexImage.ofDims, ComplexImage.size, szMul, SIZE_MOD]
    refine ⟨hs, fun hlt => ?_⟩
    unfold ComplexImage.SizeInv
    rw [hs, Nat.mod_eq_of_lt hlt]
    rfl
  · intro input w h R hR
    unfold ComplexImage.ofReal at hR
    split at hR
    · exact absurd hR (by simp)
    · rename_i d hd
      simp only [Outcome.ok.injEq] at hR
      subst hR
      have hs : d.length = (w * h) % 2 ^ 64 := by
        rw [fillReal_length _ _ _ hd]
        simp [szMul, SIZE_MOD]
      refine ⟨hs, fun hlt => ?_⟩
      unfold ComplexImage.SizeInv
      show d.length = w * h
      rw [hs, Nat.mod_eq_of_lt hlt]
  · intro input w h
    exact Iff.rfl
  · intro A w h d
    exact Iff.rfl
  · intro A B R hA h
    rcases h with h | h | h | h
    · exact sizeInv_of_shape hA (ComplexOperator_shape _ A B R h)
    · exact sizeInv_of_shape hA (ComplexOperator_shape _ A B R h)
    · exact sizeInv_of_shape hA (ComplexOperator_shape _ A B R h)
    · exact sizeInv_of_shape hA (ComplexOperator_shape _ A B R h)
  · intro A x hA
    exact ⟨sizeInv_of_shape hA (ComplexOperatorConst_shape _ A),
      sizeInv_of_shape hA (ComplexOperatorConst_shape _ A),
      sizeInv_of_shape hA (ComplexOperatorConst_shape _ A),
      sizeInv_of_shape hA (ComplexOperatorConst_shape _ A)⟩
  · intro A hA
    obtain ⟨R, hR, h1, h2, h3, -⟩ := sumOverChannels_member_ok A
    exact ⟨R, hR, sizeInv_of_shape hA ⟨h1, h2, h3⟩⟩
  · intro first rest R hA h
    simp only [sumOverChannels] at h
    exact sizeInv_of_shape (A := ComplexImage.copyCtor first) hA (sumLoop_shape rest _ R h)

/-- C9 at a concrete input: the conjugate of a 2 x 1 integer-valued field that holds two
samples, and the dimension constructor at 3 x 2. -/
theorem C9_sizeInv_witness :
    (ComplexImage.conjugate
      (ComplexImage.ofVector [({ re := 1, im := 2 } : Cplx Int), { re := 3, im := 4 }] 2 1)).SizeInv ∧
    (ComplexImage.ofDims 3 2 : ComplexImage (Cplx Int)).SizeInv :=
  ⟨((@C9_sizeInv Int _ _ _ _ ⟨fun a _ => a⟩ ⟨fun a _ => a⟩).2.2.2.2.2.2.2.2.2.1
      (ComplexImage.ofVector [({ re := 1, im := 2 } : Cplx Int), { re := 3, im := 4 }] 2 1)
      0 rfl).2.2.2,
    ((@C9_sizeInv Int _ _ _ _ ⟨fun a _ => a⟩ ⟨fun a _ => a⟩).2.2.1 3 2).2 (by decide)⟩

/-! ### C10: commutativity of field addition -/

theorem Cplx_add_comm {F : Type} [Add F] (hcomm : ∀ a b : F, a + b = b + a)
    (x y : Cplx F) : x + y = y + x := by
  show ({ re := x.re + y.re, im := x.im + y.im } : Cplx F) =
    { re := y.re + x.re, im := y.im + x.im }
  rw [hcomm x.re y.re, hcomm x.im y.im]

/-- C10: for fields `A` and `B` of equal dimensions, each holding `width * height` samples
whose scalar addition is commutative (as the addition of `float` is), `A + B` and `B + A` both
return, and return the same field: same width, same height and the same sample at every
index, the sample at `i` being `A[i] + B[i]`. -/
theorem C10_add_comm {F : Type} [Add F] (hcomm : ∀ a b : F, a + b = b + a)
    (A B : ComplexImage (Cplx F)) (hA : A.SizeInv) (hB : B.SizeInv)
    (hdim : (A.width, A.height) = (B.width, B.height)) :
    ∃ R, A.add B = .ok R ∧ B.add A = .ok R ∧ R.width = A.width ∧ R.height = A.height ∧
      ∀ (i : Nat) (a b : Cplx F), A.data_[i]? = some a → B.data_[i]? = some b →
        R.data_[i]? = some (a + b) := by
  have hsz := size_eq_of_sizeInv hA hB hdim
  obtain ⟨Ra, ha, wa, ha2, sa, ga⟩ :=
    ComplexOperator_ok (fun x y : Cplx F => x + y) A B hdim (by omega)
  obtain ⟨Rb, hb, wb, hb2, sb, gb⟩ :=
    ComplexOperator_ok (fun x y : Cplx F => x + y) B A hdim.symm (by omega)
  have hEq : Rb = Ra := by
    obtain ⟨wA, hgtA, dA⟩ := Ra
    obtain ⟨wB, hgtB, dB⟩ := Rb
    simp only [ComplexImage.width, ComplexImage.height, ComplexImage.size,
      Prod.mk.injEq] at wa ha2 sa wb hb2 sb hdim hsz ga gb
    have hd : dB = dA := by
      apply List.ext_getElem?
      intro i
      by_cases hi : i < A.data_.length
      · have hiB : i < B.data_.length := by omega
        have e1 := ga i A.data_[i] B.data_[i] (List.getElem?_eq_getElem hi)
          (List.getElem?_eq_getElem hiB)
        have e2 := gb i B.data_[i] A.data_[i] (List.getElem?_eq_getElem hiB)
          (List.getElem?_eq_getElem hi)
        rw [e1, e2, Cplx_add_comm hcomm]
      · rw [List.getElem?_eq_none (by omega), List.getElem?_eq_none (by omega)]
    rw [hd, wa, wb, ha2, hb2, hdim.1, hdim.2]
  refine ⟨Ra, ha, ?_, wa, ha2, ga⟩
  rw [← hEq]
  exact hb

/-- C10 at a concrete input: two 2 x 1 integer-valued fields. -/
theorem C10_add_comm_witness :
    ∃ R, ComplexImage.add
          (ComplexImage.ofVector [({ re := 1, im := 2 } : Cplx Int), { re := 3, im := 4 }] 2 1)
          (ComplexImage.ofVector [({ re := 5, im := 0 } : Cplx Int), { re := 7, im := 1 }] 2 1) =
        .ok R ∧
      ComplexImage.add
          (ComplexImage.ofVector [({ re := 5, im := 0 } : Cplx Int), { re := 7, im := 1 }] 2 1)
          (ComplexImage.ofVector [({ re := 1, im := 2 } : Cplx Int), { re := 3, im := 4 }] 2 1) =
        .ok R ∧
      R.width = 2 ∧ R.height = 1 ∧
      ∀ (i : Nat) (a b : Cplx Int),
        [({ re := 1, im := 2 } : Cplx Int), { re := 3, im := 4 }][i]? = some a →
        [({ re := 5, im := 0 } : Cplx Int), { re := 7, im := 1 }][i]? = some b →
        R.data_[i]? = some (a + b) :=
  C10_add_comm Int.add_comm
    (ComplexImage.ofVector [({ re := 1, im := 2 } : Cplx Int), { re := 3, im := 4 }] 2 1)
    (ComplexImage.ofVector [({ re := 5, im := 0 } : Cplx Int), { re := 7, im := 1 }] 2 1)
    rfl rfl rfl

/-! ### C11: conjugation and multiplication -/

theorem transform_map {S : Type} (op : S → S → S) (g : S → S)
    (hg : ∀ x y : S, g (op x y) = op (g x) (g y)) :
    ∀ (a b : List S), ComplexImage.transform op (a.map g) (b.map g) =
      (ComplexImage.transform op a b).map (List.map g) := by
  intro a
  induction a with
  | nil =>
    intro b
    simp [ComplexImage.transform]
  | cons l ls ih =>
    intro b
    cases b with
    | nil => simp [ComplexImage.transform]
    | cons r rs =>
      simp only [List.map_cons, ComplexImage.transform, ih rs]
      cases ComplexImage.transform op ls rs with
      | none => rfl
      | some t => simp [hg]

theorem Cplx_conj_mul {F : Type} [Add F] [Sub F] [Mul F] [Neg F]
    (hnn : ∀ u v : F, (-u) * (-v) = u * v) (hmn : ∀ u v : F, u * (-v) = -(u * v))
    (hnm : ∀ u v : F, (-u) * v = -(u * v)) (hna : ∀ p q : F, (-p) + (-q) = -(p + q))
    (a b : Cplx F) :
    ({ re := (a * b).re, im := -(a * b).im } : Cplx F) =
      ({ re := a.re, im := -a.im } : Cplx F) * { re := b.re, im := -b.im } := by
  show ({ re := a.re * b.re - a.im * b.im, im := -(a.re * b.im + a.im * b.re) } : Cplx F) =
    { re := a.re * b.re - (-a.im) * (-b.im), im := a.re * (-b.im) + (-a.im) * b.re }
  rw [hnn, hmn, hnm, hna]

/-- C11: over scalars whose negation passes through products and sums (`(-u) * (-v) = u * v`,
`u * (-v) = -(u * v)`, `(-u) * v = -(u * v)`, `(-p) + (-q) = -(p + q)`, as for `float`),
`(A * B).conjugate()` and `A.conjugate() * B.conjugate()` yield the same for all fields `A`
and `B`; for fields of equal dimensions holding `width * height` samples each, `A * B`
returns a field `R` and `A.conjugate() * B.conjugate()` returns `R.conjugate()`. -/
theorem C11_conj_mul {F : Type} [Add F] [Sub F] [Mul F] [Neg F]
    (hnn : ∀ u v : F, (-u) * (-v) = u * v) (hmn : ∀ u v : F, u * (-v) = -(u * v))
    (hnm : ∀ u v : F, (-u) * v = -(u * v)) (hna : ∀ p q : F, (-p) + (-q) = -(p + q))
    (A B : ComplexImage (Cplx F)) :
    (A.mul B).map ComplexImage.conjugate = A.conjugate.mul B.conjugate ∧
    (A.SizeInv → B.SizeInv → (A.width, A.height) = (B.width, B.height) →
      ∃ R, A.mul B = .ok R ∧ A.conjugate.mul B.conjugate = .ok R.conjugate) := by
  have hmain : (A.mul B).map ComplexImage.conjugate = A.conjugate.mul B.conjugate := by
    have hg : ∀ x y : Cplx F,
        (fun c : Cplx F => ({ re := c.re, im := -c.im } : Cplx F)) (x * y) =
          (fun c : Cplx F => ({ re := c.re, im := -c.im } : Cplx F)) x *
            (fun c : Cplx F => ({ re := c.re, im := -c.im } : Cplx F)) y :=
      fun x y => Cplx_conj_mul hnn hmn hnm hna x y
    have ht := transform_map (fun x y : Cplx F => x * y)
      (fun c : Cplx F => ({ re := c.re, im := -c.im } : Cplx F)) hg A.data_ B.data_
    simp only [ComplexImage.mul, ComplexImage.ComplexOperator, ComplexImage.conjugate,
      ComplexImage.ComplexOperatorConst, ComplexImage.copyCtor]
    by_cases hd : B.width_ = A.width_ ∧ B.height_ = A.height_
    · rw [if_pos hd, if_pos hd, ht]
      cases ComplexImage.transform (fun x y : Cplx F => x * y) A.data_ B.data_ with
      | none => rfl
      | some d => rfl
    · rw [if_neg hd, if_neg hd]
      rfl
  refine ⟨hmain, fun hA hB hdim => ?_⟩
  obtain ⟨R, hR, -⟩ := ComplexOperator_ok (fun x y : Cplx F => x * y) A B hdim
    (by rw [size_eq_of_sizeInv hA hB hdim])
  refine ⟨R, hR, ?_⟩
  rw [← hmain]
  show (ComplexImage.ComplexOperator (fun x y : Cplx F => x * y) A B).map
    ComplexImage.conjugate = _
  rw [hR]
  rfl

/-- C11 at a concrete input: two 2 x 1 integer-valued fields. -/
theorem C11_conj_mul_witness :
    (ComplexImage.mul
        (ComplexImage.ofVector [({ re := 1, im := 2 } : Cplx Int), { re := 3, im := 4 }] 2 1)
        (ComplexImage.ofVector [({ re := 5, im := 6 } : Cplx Int), { re := 0, im := 1 }] 2 1)).map
      ComplexImage.conjugate =
    ComplexImage.mul
      (ComplexImage.conjugate
        (ComplexImage.ofVector [({ re := 1, im := 2 } : Cplx Int), { re := 3, im := 4 }] 2 1))
      (ComplexImage.conjugate
        (ComplexImage.ofVector [({ re := 5, im := 6 } : Cplx Int), { re := 0, im := 1 }] 2 1)) :=
  (C11_conj_mul (F := Int) neg_mul_neg mul_neg neg_mul (fun p q => (neg_add p q).symm)
    (ComplexImage.ofVector [({ re := 1, im := 2 } : Cplx Int), { re := 3, im := 4 }] 2 1)
    (ComplexImage.ofVector [({ re := 5, im := 6 } : Cplx Int), { re := 0, im := 1 }] 2 1)).1

/-- C11, the computed values: `(1 + 2i)(5 + 6i) = -7 + 16i` and `(3 + 4i)(0 + 1i) = -4 + 3i`,
conjugated. -/
theorem C11_values_example :
    ComplexImage.mul
      (ComplexImage.conjugate
        (ComplexImage.ofVector [({ re := 1, im := 2 } : Cplx Int), { re := 3, im := 4 }] 2 1))
      (ComplexImage.conjugate
        (ComplexImage.ofVector [({ re := 5, im := 6 } : Cplx Int), { re := 0, im := 1 }] 2 1)) =
    .ok (ComplexImage.ofVector
      [({ re := -7, im := -16 } : Cplx Int), { re := -4, im := -3 }] 2 1) := by
  decide

/-! ### C12: squareNorm -/

theorem Flt.finite_add (a b : ℚ) : Flt.finite a + Flt.finite b = Flt.finite (a + b) := rfl

theorem Flt.finite_mul (a b : ℚ) : Flt.finite a * Flt.finite b = Flt.finite (a * b) := rfl

theorem Flt.finite_div (a b : ℚ) (hb : b ≠ 0) :
    Flt.finite a / Flt.finite b = Flt.finite (a / b) := by
  show Flt.div (Flt.finite a) (Flt.finite b) = _
  simp [Flt.div, hb]

theorem Flt.zero_eq : (0 : Flt) = Flt.finite 0 := rfl

theorem Flt.one_eq : (1 : Flt) = Flt.finite 1 := rfl

theorem Flt.natCast_eq (n : Nat) : ((n : Nat) : Flt) = Flt.finite n := rfl

theorem foldl_zero_samples {F : Type} [Zero F] [Add F] [Mul F]
    (h00 : (0 : F) * 0 = 0) (hz : (0 : F) + 0 = 0) :
    ∀ (d : List (Cplx F)), (∀ c ∈ d, c = 0) →
      d.foldl (fun sumSquareNorm lhs => sumSquareNorm + (lhs.re * lhs.re + lhs.im * lhs.im))
        (0 : F) = 0 := by
  intro d
  induction d with
  | nil => intro _; rfl
  | cons c cs ih =>
    intro h
    have hc : c = 0 := h c (List.mem_cons_self c cs)
    have hre : c.re = 0 := by rw [hc]; rfl
    have him : c.im = 0 := by rw [hc]; rfl
    simp only [List.foldl_cons, hre, him, h00, hz]
    exact ih (fun x hx => h x (List.mem_cons_of_mem c hx))

/-- C12 (as stated, refuted): the default-constructed field has no samples, so all its samples
are zero, and it holds `width * height = 0` samples; `squareNorm()` divides `0.0f` by `0` and
yields NaN, not 0. -/
theorem C12_empty_counterexample :
    (∀ c ∈ (ComplexImage.default : ComplexImage (Cplx Flt)).data_, c = 0) ∧
    (ComplexImage.default : ComplexImage (Cplx Flt)).SizeInv ∧
    (ComplexImage.default : ComplexImage (Cplx Flt)).squareNorm = Flt.nan ∧
    (ComplexImage.default : ComplexImage (Cplx Flt)).squareNorm ≠ 0 := by
  refine ⟨fun c hc => absurd hc (List.not_mem_nil c), by decide, by decide, by decide⟩

/-- C12 (amended): for a field holding `width * height` samples, `squareNorm()` is the sum,
accumulated in sample order from zero, of `re * re + im * im` over its samples, divided by
`width * height` converted to `float`; when the field has at least one sample
(`width * height ≠ 0`) and all its samples are zero, the result is 0 (given `0 * 0 = 0`,
`0 + 0 = 0` and `0 / n = 0` for `n ≠ 0`, as for `float`); for the 3 x 3 field whose every
sample is `1 + 0i` it is 1. -/
theorem C12_squareNorm {F : Type} [Zero F] [Add F] [Mul F] [Div F] [NatCast F]
    (A : ComplexImage (Cplx F)) (hA : A.SizeInv) (hfit : A.size < 2 ^ 64) :
    A.squareNorm =
      A.data_.foldl (fun s c => s + (c.re * c.re + c.im * c.im)) 0 /
        ((A.width * A.height : Nat) : F) ∧
    ((0 : F) * 0 = 0 → (0 : F) + 0 = 0 → (∀ n : Nat, n ≠ 0 → (0 : F) / (n : F) = 0) →
      (∀ c ∈ A.data_, c = 0) → A.width * A.height ≠ 0 → A.squareNorm = 0) ∧
    (ComplexImage.ofVector (List.replicate 9 ({ re := 1, im := 0 } : Cplx Flt)) 3 3).squareNorm =
      1 := by
  have hsz : szMul A.width_ A.height_ = A.width * A.height := by
    apply szMul_eq_of_lt
    show A.width * A.height < SIZE_MOD
    rw [← hA]
    exact hfit
  have hmean : A.squareNorm =
      A.data_.foldl (fun s c => s + (c.re * c.re + c.im * c.im)) 0 /
        ((A.width * A.height : Nat) : F) := by
    simp only [ComplexImage.squareNorm, hsz]
  refine ⟨hmean, ?_, ?_⟩
  · intro h00 hz hdiv hall hne
    rw [hmean, foldl_zero_samples h00 hz A.data_ hall]
    exact hdiv _ hne
  · simp only [ComplexImage.squareNorm, ComplexImage.ofVector, List.replicate, List.foldl,
      Flt.zero_eq, Flt.one_eq, Flt.finite_add, Flt.finite_mul, Flt.natCast_eq]
    rw [Flt.finite_div _ _ (by simp [szMul, SIZE_MOD])]
    simp [szMul, SIZE_MOD]
    norm_num

/-- C12 at a concrete input: the 2 x 1 all-zero field over the rationals has `squareNorm` 0. -/
theorem C12_squareNorm_witness :
    (ComplexImage.ofVector [({ re := 0, im := 0 } : Cplx ℚ), { re := 0, im := 0 }] 2 1).squareNorm =
      0 :=
  (C12_squareNorm
    (ComplexImage.ofVector [({ re := 0, im := 0 } : Cplx ℚ), { re := 0, im := 0 }] 2 1)
    rfl (by decide)).2.1 (by norm_num) (by norm_num) (fun n _ => by simp)
    (by
      intro c hc
      rcases List.mem_cons.mp hc with h | h
      · rw [h]; rfl
      · rw [List.mem_singleton.mp h]; rfl)
    (by decide)

/-! ### C13: the free sumOverChannels -/

theorem sumLoop_spec {S : Type} [Add S] :
    ∀ (rest : List (ComplexImage S)) (acc : ComplexImage S),
      (∀ x ∈ rest, acc.size ≤ x.size) →
      ∃ R, ComplexImage.sumLoop acc rest = .ok R ∧ R.width = acc.width ∧
        R.height = acc.height ∧ R.size = acc.size ∧
        ∀ (i : Nat) (a : S) (samples : List S), acc.data_[i]? = some a →
          rest.map (fun img => img.data_[i]?) = samples.map some →
          R.data_[i]? = some (samples.foldl (fun u v => u + v) a) := by
  intro rest
  induction rest with
  | nil =>
    intro acc _
    refine ⟨acc, rfl, rfl, rfl, rfl, ?_⟩
    intro i a samples ha hs
    cases samples with
    | nil => exact ha
    | cons b bs => simp at hs
  | cons x xs ih =>
    intro acc hsz
    obtain ⟨d, hd, hlen, hget⟩ := transform_spec (fun u v : S => u + v) acc.data_ x.data_
      (hsz x (List.mem_cons_self x xs))
    obtain ⟨R, hR, hw, hh, hs, hsamp⟩ := ih { acc with data_ := d }
      (fun y hy => by
        show d.length ≤ y.size
        rw [hlen]
        exact hsz y (List.mem_cons_of_mem x hy))
    refine ⟨R, ?_, hw, hh, by rw [hs]; exact hlen, ?_⟩
    · simp only [ComplexImage.sumLoop, hd]
      exact hR
    · intro i a samples ha hmap
      cases samples with
      | nil => simp at hmap
      | cons b bs =>
        simp only [List.map_cons, List.cons.injEq] at hmap
        have hdi : d[i]? = some (a + b) := hget i a b ha hmap.1
        exact hsamp i (a + b) bs hdi hmap.2

/-- C13: for a non-empty collection `first :: rest` of fields that all have the dimensions of
`first` and hold `width * height` samples each, the free `sumOverChannels` returns a field
with those dimensions and that sample count whose sample `i` is the sum, accumulated in
collection order, of sample `i` of every field; the vector of fields is as it was; three
2 x 2 fields with every sample `1 + 1i` give the 2 x 2 field with every sample `3 + 3i`. -/
theorem C13_sumOverChannels {S : Type} [Add S] (first : ComplexImage S)
    (rest : List (ComplexImage S)) (hinv : ∀ x ∈ first :: rest, x.SizeInv)
    (hdim : ∀ x ∈ rest, (x.width, x.height) = (first.width, first.height)) :
    (∃ R, sumOverChannels (first :: rest) = .ok R ∧
      FieldStore.sumOverChannels (first :: rest) = .ok (first :: rest, R) ∧
      R.width = first.width ∧ R.height = first.height ∧ R.size = first.size ∧
      ∀ (i : Nat) (a : S) (samples : List S), first.data_[i]? = some a →
        rest.map (fun img => img.data_[i]?) = samples.map some →
        R.data_[i]? = some (samples.foldl (fun u v => u + v) a)) ∧
    sumOverChannels
        [ComplexImage.ofVector (List.replicate 4 ({ re := 1, im := 1 } : Cplx Flt)) 2 2,
         ComplexImage.ofVector (List.replicate 4 ({ re := 1, im := 1 } : Cplx Flt)) 2 2,
         ComplexImage.ofVector (List.replicate 4 ({ re := 1, im := 1 } : Cplx Flt)) 2 2] =
      .ok (ComplexImage.ofVector
        (List.replicate 4 ({ re := Flt.finite 3, im := Flt.finite 3 } : Cplx Flt)) 2 2) := by
  constructor
  · obtain ⟨R, hR, hw, hh, hs, hsamp⟩ := sumLoop_spec rest (ComplexImage.copyCtor first)
      (fun x hx => by
        show first.size ≤ x.size
        rw [size_eq_of_sizeInv (hinv first (List.mem_cons_self first rest))
          (hinv x (List.mem_cons_of_mem first hx)) (hdim x hx).symm])
    refine ⟨R, hR, ?_, hw, hh, hs, hsamp⟩
    have e : sumOverChannels (first :: rest) = .ok R := hR
    simp only [FieldStore.sumOverChannels, e]
    rfl
  · simp only [sumOverChannels, ComplexImage.sumLoop, ComplexImage.copyCtor,
      ComplexImage.ofVector, List.replicate, ComplexImage.transform]
    have h2 : ({ re := 1, im := 1 } : Cplx Flt) + { re := 1, im := 1 } =
        { re := Flt.finite 2, im := Flt.finite 2 } := by
      show ({ re := (1 : Flt) + 1, im := (1 : Flt) + 1 } : Cplx Flt) = _
      simp only [Flt.one_eq, Flt.finite_add]
      norm_num
    have h3 : ({ re := Flt.finite 2, im := Flt.finite 2 } : Cplx Flt) + { re := 1, im := 1 } =
        { re := Flt.finite 3, im := Flt.finite 3 } := by
      show ({ re := Flt.finite 2 + 1, im := Flt.finite 2 + 1 } : Cplx Flt) = _
      simp only [Flt.one_eq, Flt.finite_add]
      norm_num
    simp only [h2, h3]

/-- C13 at a concrete input: three 1 x 2 integer-valued fields. -/
theorem C13_sumOverChannels_witness :
    ∃ R, sumOverChannels
        [ComplexImage.ofVector [(1 : Int), 2] 1 2, ComplexImage.ofVector [(10 : Int), 20] 1 2,
         ComplexImage.ofVector [(100 : Int), 200] 1 2] = .ok R ∧
      FieldStore.sumOverChannels
        [ComplexImage.ofVector [(1 : Int), 2] 1 2, ComplexImage.ofVector [(10 : Int), 20] 1 2,
         ComplexImage.ofVector [(100 : Int), 200] 1 2] =
        .ok ([ComplexImage.ofVector [(1 : Int), 2] 1 2,
          ComplexImage.ofVector [(10 : Int), 20] 1 2,
          ComplexImage.ofVector [(100 : Int), 200] 1 2], R) ∧
      R.width = 1 ∧ R.height = 2 ∧ R.size = 2 ∧
      ∀ (i : Nat) (a : Int) (samples : List Int), [(1 : Int), 2][i]? = some a →
        [ComplexImage.ofVector [(10 : Int), 20] 1 2,
          ComplexImage.ofVector [(100 : Int), 200] 1 2].map (fun img => img.data_[i]?) =
            samples.map some →
        R.data_[i]? = some (samples.foldl (fun u v => u + v) a) :=
  (C13_sumOverChannels (ComplexImage.ofVector [(1 : Int), 2] 1 2)
    [ComplexImage.ofVector [(10 : Int), 20] 1 2, ComplexImage.ofVector [(100 : Int), 200] 1 2]
    (by decide) (by decide)).1

/-- C13, the computed value for three 1 x 2 integer-valued fields. -/
theorem C13_values_example :
    sumOverChannels
        [ComplexImage.ofVector [(1 : Int), 2] 1 2, ComplexImage.ofVector [(10 : Int), 20] 1 2,
         ComplexImage.ofVector [(100 : Int), 200] 1 2] =
      .ok (ComplexImage.ofVector [(111 : Int), 222] 1 2) := by
  decide

/-! ### C14: multiplying and `*` -/

theorem ComplexOperator_assert_iff {S : Type} (op : S → S → S) (A B : ComplexImage S) :
    ComplexImage.ComplexOperator op A B = .assertFailed ↔
      (A.width, A.height) ≠ (B.width, B.height) := by
  constructor
  · intro h hdim
    simp only [ComplexImage.width, ComplexImage.height, Prod.mk.injEq] at hdim
    unfold ComplexImage.ComplexOperator at h
    rw [if_pos ⟨hdim.1.symm, hdim.2.symm⟩] at h
    split at h <;> exact absurd h (by simp)
  · exact ComplexOperator_assert op A B

/-- C14: for all fields `A` and `B`, `A.multiplying(B)` and `A * B` yield the same: both
fail their `assert` exactly when the dimensions differ, and otherwise both return the same
field (or both read past the end of `B`'s samples, which cannot happen when both fields hold
`width * height` samples). -/
theorem C14_multiplying_eq_mul {S : Type} [Mul S] (A B : ComplexImage S) :
    A.multiplying B = A.mul B ∧
    (A.multiplying B = .assertFailed ↔ (A.width, A.height) ≠ (B.width, B.height)) ∧
    (A.mul B = .assertFailed ↔ (A.width, A.height) ≠ (B.width, B.height)) ∧
    (A.SizeInv → B.SizeInv → (A.width, A.height) = (B.width, B.height) →
      ∃ R, A.multiplying B = .ok R ∧ A.mul B = .ok R) := by
  refine ⟨rfl, ComplexOperator_assert_iff _ A B, ComplexOperator_assert_iff _ A B, ?_⟩
  intro hA hB hdim
  obtain ⟨R, hR, -⟩ := ComplexOperator_ok (fun x y : S => x * y) A B hdim
    (by rw [size_eq_of_sizeInv hA hB hdim])
  exact ⟨R, hR, hR⟩

/-- C14 at a concrete input: two 2 x 1 integer-valued fields. -/
theorem C14_multiplying_eq_mul_witness :
    ∃ R, ComplexImage.multiplying (ComplexImage.ofVector [(6 : Int), 8] 2 1)
        (ComplexImage.ofVector [(3 : Int), 2] 2 1) = .ok R ∧
      ComplexImage.mul (ComplexImage.ofVector [(6 : Int), 8] 2 1)
        (ComplexImage.ofVector [(3 : Int), 2] 2 1) = .ok R :=
  (C14_multiplying_eq_mul (ComplexImage.ofVector [(6 : Int), 8] 2 1)
    (ComplexImage.ofVector [(3 : Int), 2] 2 1)).2.2.2 rfl rfl rfl

/-- C14, computed: `multiplying` and `*` on two 2 x 1 integer-valued fields, and on fields of
different dimensions. -/
theorem C14_values_example :
    ComplexImage.multiplying (ComplexImage.ofVector [(6 : Int), 8] 2 1)
        (ComplexImage.ofVector [(3 : Int), 2] 2 1) =
      .ok (ComplexImage.ofVector [(18 : Int), 16] 2 1) ∧
    ComplexImage.multiplying (ComplexImage.ofVector [(6 : Int), 8] 2 1)
        (ComplexImage.ofVector [(3 : Int), 2] 1 2) = .assertFailed := by
  decide

/-! ### C15: the member sumOverChannels -/

/-- C15: for every field `A`, at position `this` of a store, the member `sumOverChannels()`
returns a field with `A`'s dimensions and sample count whose sample `i` is `A[i] + A[i]`; it
is the field `A + A` returns; the call leaves `A`, and every object of the store, as it
was. -/
theorem C15_sumOverChannels_member {S : Type} [Add S] (s : FieldStore S) (this : Nat)
    (A : ComplexImage S) (hA : s[this]? = some A) :
    ∃ R, A.sumOverChannels = .ok R ∧ A.add A = .ok R ∧
      R.width = A.width ∧ R.height = A.height ∧ R.size = A.size ∧
      (∀ (i : Nat) (a : S), A.data_[i]? = some a → R.data_[i]? = some (a + a)) ∧
      FieldStore.callUnary ComplexImage.sumOverChannels s this = .ok (s ++ [R], s.length) ∧
      (s ++ [R])[this]? = some A ∧ ∀ k, k < s.length → (s ++ [R])[k]? = s[k]? := by
  obtain ⟨R, hR, hw, hh, hs, hget⟩ := sumOverChannels_member_ok A
  have hlt : this < s.length := (List.getElem?_eq_some.mp hA).1
  refine ⟨R, hR, ?_, hw, hh, hs, hget, ?_, ?_, ?_⟩
  · simp only [ComplexImage.sumOverChannels] at hR
    simp only [ComplexImage.add, ComplexImage.ComplexOperator, ComplexImage.copyCtor,
      and_self, if_true]
    split at hR
    · exact absurd hR (by simp)
    · rename_i d hd
      simp only [Outcome.ok.injEq] at hR
      rw [hR]
  · simp only [FieldStore.callUnary, hA, hR]
    rfl
  · rw [List.getElem?_append_left hlt, hA]
  · intro k hk
    exact List.getElem?_append_left hk

/-- C15 at a concrete input: the 2 x 1 integer-valued field `[3, 4]` in a one-object store. -/
theorem C15_sumOverChannels_member_witness :
    ∃ R, (ComplexImage.ofVector [(3 : Int), 4] 2 1).sumOverChannels = .ok R ∧
      (ComplexImage.ofVector [(3 : Int), 4] 2 1).add (ComplexImage.ofVector [(3 : Int), 4] 2 1) =
        .ok R ∧
      R.width = 2 ∧ R.height = 1 ∧ R.size = 2 ∧
      (∀ (i : Nat) (a : Int), [(3 : Int), 4][i]? = some a → R.data_[i]? = some (a + a)) ∧
      FieldStore.callUnary ComplexImage.sumOverChannels
        [ComplexImage.ofVector [(3 : Int), 4] 2 1] 0 =
          .ok ([ComplexImage.ofVector [(3 : Int), 4] 2 1] ++ [R], 1) ∧
      ([ComplexImage.ofVector [(3 : Int), 4] 2 1] ++ [R])[0]? =
        some (ComplexImage.ofVector [(3 : Int), 4] 2 1) ∧
      ∀ k, k < 1 →
        ([ComplexImage.ofVector [(3 : Int), 4] 2 1] ++ [R])[k]? =
          [ComplexImage.ofVector [(3 : Int), 4] 2 1][k]? :=
  C15_sumOverChannels_member [ComplexImage.ofVector [(3 : Int), 4] 2 1] 0
    (ComplexImage.ofVector [(3 : Int), 4] 2 1) rfl

/-- C15, computed: `[3, 4]` summed over channels reads `[6, 8]`. -/
theorem C15_values_example :
    (ComplexImage.ofVector [(3 : Int), 4] 2 1).sumOverChannels =
      .ok (ComplexImage.ofVector [(6 : Int), 8] 2 1) := by
  decide

/-! ### C16: moving a ComplexImage -/

/-- C16 (as stated, refuted): after `ComplexImage b(std::move(a))` and after
`b = std::move(a)` the 2 x 1 field `a` with samples `[3, 4]` still has width 2, height 1 and
its two samples. -/
theorem C16_move_counterexample :
    (ComplexImage.moveConstruct (ComplexImage.ofVector [(3 : Int), 4] 2 1)).2 =
      ComplexImage.ofVector [(3 : Int), 4] 2 1 ∧
    (ComplexImage.moveConstruct (ComplexImage.ofVector [(3 : Int), 4] 2 1)).2.width ≠ 0 ∧
    (ComplexImage.moveConstruct (ComplexImage.ofVector [(3 : Int), 4] 2 1)).2.size ≠ 0 ∧
    (ComplexImage.moveAssign ComplexImage.default
      (ComplexImage.ofVector [(3 : Int), 4] 2 1)).2.width ≠ 0 ∧
    (ComplexImage.moveAssign ComplexImage.default
      (ComplexImage.ofVector [(3 : Int), 4] 2 1)).2.size ≠ 0 := by
  decide

/-- C16 (amended): for every `ComplexImage` `A`, constructing or assigning another field from
`A` by move gives the destination `A`'s width, height and samples and leaves `A` as it was:
the class has no move operations, so both calls copy. -/
theorem C16_move_copies {S : Type} (A T : ComplexImage S) :
    (ComplexImage.moveConstruct A).1 = A ∧ (ComplexImage.moveConstruct A).2 = A ∧
    (ComplexImage.moveAssign T A).1 = A ∧ (ComplexImage.moveAssign T A).2 = A :=
  ⟨rfl, rfl, rfl, rfl⟩

/-! ### C17: the operators leave their operands unchanged -/

section FieldStoreLemmas

variable {S : Type}

theorem Outcome_map_eq_ok {α β : Type} {g : α → β} {o : Outcome α} {b : β}
    (h : o.map g = .ok b) : ∃ a, o = .ok a ∧ g a = b := by
  cases o with
  | ok a =>
    simp only [Outcome.map, Outcome.ok.injEq] at h
    exact ⟨a, rfl, h⟩
  | assertFailed => simp [Outcome.map] at h
  | undefinedBehaviour => simp [Outcome.map] at h

theorem callBinary_frame (f : ComplexImage S → ComplexImage S → Outcome (ComplexImage S))
    (hshape : ∀ a b R, f a b = .ok R →
      R.width = a.width ∧ R.height = a.height ∧ R.size = a.size)
    (s : FieldStore S) (this rhs : Nat) (A B : ComplexImage S)
    (hA : s[this]? = some A) (hB : s[rhs]? = some B) (s1 : FieldStore S) (r : Nat)
    (h : FieldStore.callBinary f s this rhs = .ok (s1, r)) :
    s1[this]? = some A ∧ s1[rhs]? = some B ∧ (∀ k, k < s.length → s1[k]? = s[k]?) ∧
      ∃ R, s1[r]? = some R ∧ R.width = A.width ∧ R.height = A.height ∧ R.size = A.size := by
  simp only [FieldStore.callBinary, hA, hB] at h
  obtain ⟨R, hR, hp⟩ := Outcome_map_eq_ok h
  simp only [Prod.mk.injEq] at hp
  obtain ⟨rfl, rfl⟩ := hp
  have hlt : this < s.length := (List.getElem?_eq_some.mp hA).1
  have hlr : rhs < s.length := (List.getElem?_eq_some.mp hB).1
  refine ⟨by rw [List.getElem?_append_left hlt, hA], by rw [List.getElem?_append_left hlr, hB],
    fun k hk => List.getElem?_append_left hk, R, ?_, hshape A B R hR⟩
  rw [List.getElem?_append_right (Nat.le_refl _)]
  simp

theorem callUnary_frame (f : ComplexImage S → Outcome (ComplexImage S))
    (hshape : ∀ a, ∃ R, f a = .ok R ∧
      R.width = a.width ∧ R.height = a.height ∧ R.size = a.size)
    (s : FieldStore S) (this : Nat) (A : ComplexImage S) (hA : s[this]? = some A) :
    ∃ s1 r, FieldStore.callUnary f s this = .ok (s1, r) ∧ s1[this]? = some A ∧
      (∀ k, k < s.length → s1[k]? = s[k]?) ∧
      ∃ R, s1[r]? = some R ∧ R.width = A.width ∧ R.height = A.height ∧ R.size = A.size := by
  obtain ⟨R, hR, hs⟩ := hshape A
  have hlt : this < s.length := (List.getElem?_eq_some.mp hA).1
  refine ⟨s ++ [R], s.length, ?_, by rw [List.getElem?_append_left hlt, hA],
    fun k hk => List.getElem?_append_left hk, R, ?_, hs⟩
  · simp only [FieldStore.callUnary, hA, hR]
    rfl
  · rw [List.getElem?_append_right (Nat.le_refl _)]
    simp

end FieldStoreLemmas

/-- C17: for live objects `A` (at `this`) and `B` (at `rhs`) of a store: whenever `+`, `*`,
`/` or `multiplying` against a field returns, and always for `*` and `+` against a scalar,
`conjugate`, `squareMagnitude` and the member `sumOverChannels`, the store after the call
holds `A`, `B` and every other object as before, plus the returned field as a new object,
which has the width, height and sample count of `A`; `squareNorm` returns its number and
leaves the store as it is. -/
theorem C17_operands_unchanged {F : Type} [Zero F] [Add F] [Sub F] [Mul F] [Neg F] [Div F]
    [NatCast F] [Div (Cplx F)] (s : FieldStore (Cplx F)) (this rhs : Nat)
    (A B : ComplexImage (Cplx F)) (hA : s[this]? = some A) (hB : s[rhs]? = some B) (x : F) :
    (∀ f ∈ [ComplexImage.add, ComplexImage.mul, ComplexImage.div, ComplexImage.multiplying],
      ∀ s1 r, FieldStore.callBinary f s this rhs = .ok (s1, r) →
        s1[this]? = some A ∧ s1[rhs]? = some B ∧ (∀ k, k < s.length → s1[k]? = s[k]?) ∧
        ∃ R, s1[r]? = some R ∧ R.width = A.width ∧ R.height = A.height ∧ R.size = A.size) ∧
    (∀ f ∈ [fun a => Outcome.ok (ComplexImage.mulScalar a x),
        fun a => Outcome.ok (ComplexImage.addScalar a x),
        fun a => Outcome.ok (ComplexImage.conjugate a),
        fun a => Outcome.ok (ComplexImage.squareMagnitude a),
        ComplexImage.sumOverChannels],
      ∃ s1 r, FieldStore.callUnary f s this = .ok (s1, r) ∧ s1[this]? = some A ∧
        (∀ k, k < s.length → s1[k]? = s[k]?) ∧
        ∃ R, s1[r]? = some R ∧ R.width = A.width ∧ R.height = A.height ∧ R.size = A.size) ∧
    FieldStore.callValue ComplexImage.squareNorm s this = .ok (s, A.squareNorm) := by
  refine ⟨?_, ?_, ?_⟩
  · intro f hf s1 r h
    have hshape : ∀ a b R, f a b = .ok R →
        R.width = a.width ∧ R.height = a.height ∧ R.size = a.size := by
      simp only [List.mem_cons, List.mem_singleton, List.not_mem_nil, or_false] at hf
      rcases hf with rfl | rfl | rfl | rfl
      · exact fun a b R hR => ComplexOperator_shape _ a b R hR
      · exact fun a b R hR => ComplexOperator_shape _ a b R hR
      · exact fun a b R hR => ComplexOperator_shape _ a b R hR
      · exact fun a b R hR => ComplexOperator_shape _ a b R hR
    exact callBinary_frame f hshape s this rhs A B hA hB s1 r h
  · intro f hf
    have hshape : ∀ a, ∃ R, f a = .ok R ∧
        R.width = a.width ∧ R.height = a.height ∧ R.size = a.size := by
      simp only [List.mem_cons, List.mem_singleton, List.not_mem_nil, or_false] at hf
      rcases hf with rfl | rfl | rfl | rfl | rfl
      · exact fun a => ⟨_, rfl, ComplexOperatorConst_shape _ a⟩
      · exact fun a => ⟨_, rfl, ComplexOperatorConst_shape _ a⟩
      · exact fun a => ⟨_, rfl, ComplexOperatorConst_shape _ a⟩
      · exact fun a => ⟨_, rfl, ComplexOperatorConst_shape _ a⟩
      · intro a
        obtain ⟨R, hR, h1, h2, h3, -⟩ := sumOverChannels_member_ok a
        exact ⟨R, hR, h1, h2, h3⟩
    exact callUnary_frame f hshape s this A hA
  · simp only [FieldStore.callValue, hA]

/-- C17 at a concrete input: `conjugate` called on object 0 of the store holding the 2 x 1
integer-valued fields `[1 + 2i, 3 + 4i]` and `[5, 6 + i]`. -/
theorem C17_operands_unchanged_witness :
    ∃ s1 r, FieldStore.callUnary (fun a => Outcome.ok (ComplexImage.conjugate a))
        [ComplexImage.ofVector [({ re := 1, im := 2 } : Cplx Int), { re := 3, im := 4 }] 2 1,
         ComplexImage.ofVector [({ re := 5, im := 0 } : Cplx Int), { re := 6, im := 1 }] 2 1]
        0 = .ok (s1, r) ∧
      s1[0]? = some
        (ComplexImage.ofVector [({ re := 1, im := 2 } : Cplx Int), { re := 3, im := 4 }] 2 1) ∧
      (∀ k, k < 2 → s1[k]? =
        [ComplexImage.ofVector [({ re := 1, im := 2 } : Cplx Int), { re := 3, im := 4 }] 2 1,
         ComplexImage.ofVector [({ re := 5, im := 0 } : Cplx Int), { re := 6, im := 1 }] 2 1][k]?) ∧
      ∃ R, s1[r]? = some R ∧ R.width = 2 ∧ R.height = 1 ∧ R.size = 2 :=
  (@C17_operands_unchanged Int _ _ _ _ _ _ _ ⟨fun a _ => a⟩
    [ComplexImage.ofVector [({ re := 1, im := 2 } : Cplx Int), { re := 3, im := 4 }] 2 1,
     ComplexImage.ofVector [({ re := 5, im := 0 } : Cplx Int), { re := 6, im := 1 }] 2 1]
    0 1 _ _ rfl rfl 0).2.1 _ (by simp)

/-- C17, computed: `A * B` called on the two objects of a store appends the product and
keeps both operands. -/
theorem C17_values_example :
    FieldStore.callBinary ComplexImage.mul
        [ComplexImage.ofVector [({ re := 1, im := 2 } : Cplx Int)] 1 1,
         ComplexImage.ofVector [({ re := 5, im := 6 } : Cplx Int)] 1 1] 0 1 =
      .ok ([ComplexImage.ofVector [({ re := 1, im := 2 } : Cplx Int)] 1 1,
            ComplexImage.ofVector [({ re := 5, im := 6 } : Cplx Int)] 1 1,
            ComplexImage.ofVector [({ re := -7, im := 16 } : Cplx Int)] 1 1], 2) := by
  decide

/-! ### C18: Point::transform -/

/-- C18: `p.transform(matrix)` leaves `p` unchanged for every matrix whose length is not 9;
for a 9-entry matrix it replaces `(x, y)` by `((m0*x + m1*y + m2) / z, (m3*x + m4*y + m5) / z)`
with `z = m6*x + m7*y + m8`, computed in `double` and converted back to the coordinate type;
the identity matrix leaves the point `(0, 0)` at `(0, 0)`. -/
theorem C18_transform {T D : Type} [Add D] [Mul D] [Div D] (toDouble : T → D)
    (ofDouble : D → T) (p : Point T) :
    (∀ m : List D, m.length ≠ 9 → p.transform toDouble ofDouble m = p) ∧
    (∀ m0 m1 m2 m3 m4 m5 m6 m7 m8 : D,
      p.transform toDouble ofDouble [m0, m1, m2, m3, m4, m5, m6, m7, m8] =
        { x_ := ofDouble ((m0 * toDouble p.x_ + m1 * toDouble p.y_ + m2) /
            (m6 * toDouble p.x_ + m7 * toDouble p.y_ + m8)),
          y_ := ofDouble ((m3 * toDouble p.x_ + m4 * toDouble p.y_ + m5) /
            (m6 * toDouble p.x_ + m7 * toDouble p.y_ + m8)) }) ∧
    Point.transform (fun v : Flt => v) (fun v : Flt => v) { x_ := 0, y_ := 0 }
      [1, 0, 0, 0, 1, 0, 0, 0, 1] = { x_ := 0, y_ := 0 } := by
  refine ⟨?_, fun _ _ _ _ _ _ _ _ _ => rfl, ?_⟩
  · intro m hm
    unfold Point.transform
    split
    · exact absurd rfl hm
    · rfl
  · simp only [Point.transform, Flt.zero_eq, Flt.one_eq, Flt.finite_mul, Flt.finite_add]
    rw [Flt.finite_div _ _ (by norm_num), Flt.finite_div _ _ (by norm_num)]
    norm_num

/-- C18 at a concrete input: a 5-entry matrix leaves the integer point `(3, 4)` where it
is. -/
theorem C18_transform_witness :
    Point.transform (fun v : Int => v) (fun v : Int => v) { x_ := 3, y_ := 4 }
      [1, 2, 3, 4, 5] = { x_ := 3, y_ := 4 } :=
  (C18_transform (fun v : Int => v) (fun v : Int => v) { x_ := 3, y_ := 4 }).1
    [1, 2, 3, 4, 5] (by decide)

/-- C18, computed over the rationals: the matrix `[2,0,1, 0,2,1, 0,0,2]` takes `(3, 4)` to
`((2*3 + 1) / 2, (2*4 + 1) / 2)`. -/
theorem C18_values_example :
    Point.transform (fun v : ℚ => v) (fun v : ℚ => v) { x_ := 3, y_ := 4 }
      [2, 0, 1, 0, 2, 1, 0, 0, 2] = { x_ := 7 / 2, y_ := 9 / 2 } := by
  simp only [Point.transform]
  norm_num

/-! ### C20: the offsets of ptr and get -/

theorem flatIndex_lt_of_lex (w ch : Nat) {x y c x1 y1 c1 : Nat} (hx : x < w) (hc : c < ch)
    (h : y < y1 ∨ (y = y1 ∧ x < x1) ∨ (y = y1 ∧ x = x1 ∧ c < c1)) :
    (y * w + x) * ch + c < (y1 * w + x1) * ch + c1 := by
  have step : ∀ p p1 : Nat, p < p1 → p * ch + c < p1 * ch + c1 := by
    intro p p1 hp
    have h1 : (p + 1) * ch ≤ p1 * ch := Nat.mul_le_mul_right ch hp
    rw [Nat.succ_mul] at h1
    omega
  rcases h with h | ⟨rfl, h⟩ | ⟨rfl, rfl, h⟩
  · apply step
    have h1 : (y + 1) * w ≤ y1 * w := Nat.mul_le_mul_right w h
    rw [Nat.succ_mul] at h1
    omega
  · apply step
    omega
  · omega

theorem lex_trichotomy {x y c x1 y1 c1 : Nat} (hne : (x1, y1, c1) ≠ (x, y, c)) :
    (y < y1 ∨ (y = y1 ∧ x < x1) ∨ (y = y1 ∧ x = x1 ∧ c < c1)) ∨
    (y1 < y ∨ (y1 = y ∧ x1 < x) ∨ (y1 = y ∧ x1 = x ∧ c1 < c)) := by
  by_contra hcon
  apply hne
  have hy : y = y1 := by omega
  have hx : x = x1 := by omega
  have hc : c = c1 := by omega
  rw [hx, hy, hc]

/-- C20: for a buffer holding exactly `width * height * channels * element_size` bytes (a
`size_t` value) and coordinates `x < width`, `y < height`, `c < channels`: the offset that
`ptr(x, y, c)` and `get(x, y, c)` use is `((y * width + x) * channels + c) * element_size`,
the element ends inside the buffer (`offset + element_size <= size()`), it is the offset of
the flat `ptr(index)` with `index = (y * width + x) * channels + c`, and every other in-bounds
triple has a byte range of length `element_size` disjoint from this one. -/
theorem C20_offsets (v : ImageView) (hinv : v.ExactSizeInv) (hfit : v.size < 2 ^ 64)
    (x y c : Nat) (hx : x < v.width) (hy : y < v.height) (hc : c < v.channels) :
    v.ptrXYC x y c = ((y * v.width + x) * v.channels + c) * v.element_size ∧
    v.ptrXYC x y c + v.element_size ≤ v.size ∧
    v.ptrXYC x y c = v.ptr ((y * v.width + x) * v.channels + c) ∧
    ∀ x1 y1 c1, x1 < v.width → y1 < v.height → c1 < v.channels → (x1, y1, c1) ≠ (x, y, c) →
      v.ptrXYC x y c + v.element_size ≤ v.ptrXYC x1 y1 c1 ∨
      v.ptrXYC x1 y1 c1 + v.element_size ≤ v.ptrXYC x y c := by
  have hM : v.width_ * v.height_ * v.channels_ * v.element_size_ < SIZE_MOD := by
    have : v.size = v.width_ * v.height_ * v.channels_ * v.element_size_ := hinv
    rw [← this]
    exact hfit
  obtain ⟨e, hb⟩ := ptrXYC_eq v x y c hx hy hc hM
  have hsz : v.size = v.width_ * v.height_ * v.channels_ * v.element_size_ := hinv
  refine ⟨e, by rw [e, hsz]; exact hb, ?_, ?_⟩
  · rw [e]
    simp only [ImageView.ptr, ImageView.width, ImageView.channels]
    exact (szMul_eq_of_lt (by omega)).symm
  · intro x1 y1 c1 hx1 hy1 hc1 hne
    obtain ⟨e1, -⟩ := ptrXYC_eq v x1 y1 c1 hx1 hy1 hc1 hM
    rw [e, e1]
    simp only [ImageView.width, ImageView.channels, ImageView.element_size]
    rcases lex_trichotomy hne with h | h
    · left
      have hlt := flatIndex_lt_of_lex v.width_ v.channels_ hx hc h
      have := Nat.mul_le_mul_right v.element_size_ (Nat.succ_le_of_lt hlt)
      rw [Nat.succ_mul] at this
      exact this
    · right
      have hlt := flatIndex_lt_of_lex v.width_ v.channels_ hx1 hc1 h
      have := Nat.mul_le_mul_right v.element_size_ (Nat.succ_le_of_lt hlt)
      rw [Nat.succ_mul] at this
      exact this

/-- C20 at a concrete input: element `(1, 1, 0)` of the 3 x 2 buffer of 2-byte elements. -/
theorem C20_offsets_witness :
    ImageView.ptrXYC (ImageView.ofDims 3 2 1 2) 1 1 0 = ((1 * 3 + 1) * 1 + 0) * 2 ∧
    ImageView.ptrXYC (ImageView.ofDims 3 2 1 2) 1 1 0 + 2 ≤ 12 ∧
    ImageView.ptrXYC (ImageView.ofDims 3 2 1 2) 1 1 0 =
      ImageView.ptr (ImageView.ofDims 3 2 1 2) ((1 * 3 + 1) * 1 + 0) ∧
    ∀ x1 y1 c1, x1 < 3 → y1 < 2 → c1 < 1 → (x1, y1, c1) ≠ (1, 1, 0) →
      ImageView.ptrXYC (ImageView.ofDims 3 2 1 2) 1 1 0 + 2 ≤
          ImageView.ptrXYC (ImageView.ofDims 3 2 1 2) x1 y1 c1 ∨
      ImageView.ptrXYC (ImageView.ofDims 3 2 1 2) x1 y1 c1 + 2 ≤
          ImageView.ptrXYC (ImageView.ofDims 3 2 1 2) 1 1 0 :=
  C20_offsets (ImageView.ofDims 3 2 1 2) (by decide) (by decide) 1 1 0
    (by decide) (by decide) (by decide)

/-! ### C21: the row copies of crop stay in bounds -/

theorem cropRows_eq_runCopies (src : List Byte) (sp bigStep smallStep : Nat) :
    ∀ (rows bigStride smallStride : Nat) (data : List Byte),
      ImageView.cropRows src sp bigStep smallStep rows bigStride smallStride data =
        ImageView.runCopies src
          (ImageView.cropCopies sp bigStep smallStep rows bigStride smallStride) data := by
  intro rows
  induction rows with
  | zero => intro _ _ _; rfl
  | succ n ih =>
    intro bigStride smallStride data
    simp only [ImageView.cropRows, ImageView.cropCopies, ImageView.runCopies]
    cases ImageView.memcpy data smallStride src (sp + bigStride) smallStep with
    | none => rfl
    | some d => exact ih _ _ d

theorem cropCtor_eq_runCopies (source : ImageView) (roi : strobeRectangle) :
    ImageView.cropCtor source roi =
      (ImageView.runCopies source.data_ (ImageView.cropCtorCopies source roi)
        (List.replicate
          (szMul (szMul (szMul roi.width roi.height) source.channels) source.element_size)
          0)).map
        (fun d => { width_ := roi.width, height_ := roi.height, channels_ := source.channels,
                    element_size_ := source.element_size, data_ := d }) := by
  simp only [ImageView.cropCtor, ImageView.cropCtorCopies, cropRows_eq_runCopies]
  cases ImageView.runCopies source.data_ _ _ with
  | none => rfl
  | some d => rfl

theorem cropCopies_length (sp bigStep smallStep : Nat) :
    ∀ (rows bigStride smallStride : Nat),
      (ImageView.cropCopies sp bigStep smallStep rows bigStride smallStride).length = rows := by
  intro rows
  induction rows with
  | zero => intro _ _; rfl
  | succ n ih =>
    intro bigStride smallStride
    simp only [ImageView.cropCopies, List.length_cons, ih]

theorem cropCopies_getElem? (sp bigStep smallStep : Nat) :
    ∀ (rows bigStride smallStride : Nat),
      bigStride + rows * bigStep < SIZE_MOD → smallStride + rows * smallStep < SIZE_MOD →
      ∀ y, y < rows →
        (ImageView.cropCopies sp bigStep smallStep rows bigStride smallStride)[y]? =
          some { dstOff := smallStride + y * smallStep,
                 srcOff := sp + (bigStride + y * bigStep), count := smallStep } := by
  intro rows
  induction rows with
  | zero => intro _ _ _ _ y hy; exact absurd hy (Nat.not_lt_zero y)
  | succ n ih =>
    intro bigStride smallStride hB hS y hy
    have e1 : (n + 1) * bigStep = n * bigStep + bigStep := Nat.succ_mul n bigStep
    have e2 : (n + 1) * smallStep = n * smallStep + smallStep := Nat.succ_mul n smallStep
    cases y with
    | zero =>
      simp only [ImageView.cropCopies, List.getElem?_cons_zero, Nat.zero_mul, Nat.add_zero]
    | succ y =>
      have hBs : szAdd bigStride bigStep = bigStride + bigStep := szAdd_eq_of_lt (by omega)
      have hSs : szAdd smallStride smallStep = smallStride + smallStep :=
        szAdd_eq_of_lt (by omega)
      simp only [ImageView.cropCopies, List.getElem?_cons_succ, hBs, hSs]
      rw [ih (bigStride + bigStep) (smallStride + smallStep) (by omega) (by omega) y (by omega)]
      have e3 : (y + 1) * bigStep = y * bigStep + bigStep := Nat.succ_mul y bigStep
      have e4 : (y + 1) * smallStep = y * smallStep + smallStep := Nat.succ_mul y smallStep
      congr 2
      · omega
      · omega

theorem crop_returns (source : ImageView) (roi : strobeRectangle)
    (hinv : source.ExactSizeInv) (hfit : source.size < 2 ^ 64)
    (hl : 0 ≤ roi.left) (hw : roi.left + roi.width ≤ source.width)
    (hb : 0 ≤ roi.bottom) (ht : roi.top ≤ source.height)
    (hh : (roi.height : Int) = roi.top - roi.bottom) :
    ∃ r, source.crop roi = some r ∧ r.width = roi.width ∧ r.height = roi.height ∧
      r.channels = source.channels ∧ r.element_size = source.element_size := by
  obtain ⟨W, H, C, E, D⟩ := source
  obtain ⟨l, rt, b, t, rw, rh⟩ := roi
  simp only [ImageView.ExactSizeInv, ImageView.size, ImageView.width, ImageView.height,
    ImageView.channels, ImageView.element_size] at hinv hfit hl hw hb ht hh ⊢
  obtain ⟨ln, rfl⟩ := Int.eq_ofNat_of_zero_le hl
  obtain ⟨bn, rfl⟩ := Int.eq_ofNat_of_zero_le hb
  have hrows : (t - (bn : Int)).toNat = rh := by rw [← hh]; exact Int.toNat_ofNat rh
  have lw : ln + rw ≤ W := by omega
  have bh : bn + rh ≤ H := by omega
  rcases Nat.eq_zero_or_pos rh with h0 | hpos
  · subst h0
    refine ⟨{ width_ := rw, height_ := 0, channels_ := C, element_size_ := E, data_ := [] },
      ?_, rfl, rfl, rfl, rfl⟩
    simp [ImageView.crop, ImageView.cropCtor, hrows, ImageView.cropRows, szMul,
      ImageView.width, ImageView.height, ImageView.channels, ImageView.element_size]
  · have hM : W * H * C * E < SIZE_MOD := by rw [← hinv]; exact hfit
    have hH : 1 ≤ H := by omega
    have eWH : W * H * C * E = H * (W * C * E) := by ring
    have hWCE : W * C * E ≤ W * H * C * E := by
      rw [eWH]; exact Nat.le_mul_of_pos_left _ hH
    have hbig : szMul (szMul W C) E = W * C * E := szMul2_eq_of_lt (by omega)
    have hrwW : rw * C * E ≤ W * C * E :=
      Nat.mul_le_mul_right E (Nat.mul_le_mul_right C (by omega))
    have hsmall : szMul (szMul rw C) E = rw * C * E := szMul2_eq_of_lt (by omega)
    have hlnW : ln * C * E + rw * C * E ≤ W * C * E := by
      have : (ln + rw) * C * E ≤ W * C * E :=
        Nat.mul_le_mul_right E (Nat.mul_le_mul_right C lw)
      calc ln * C * E + rw * C * E = (ln + rw) * C * E := by ring
        _ ≤ W * C * E := this
    have hsp : szMul (szMul (toSizeT (ln : Int)) C) E = ln * C * E := by
      rw [toSizeT_natCast, szMul_mod_left]
      exact szMul2_eq_of_lt (by omega)
    have hbH : W * C * E * bn + rh * (W * C * E) ≤ W * H * C * E := by
      have : (bn + rh) * (W * C * E) ≤ H * (W * C * E) := Nat.mul_le_mul_right _ bh
      calc W * C * E * bn + rh * (W * C * E) = (bn + rh) * (W * C * E) := by ring
        _ ≤ H * (W * C * E) := this
        _ = W * H * C * E := by ring
    have hstride : szMul (W * C * E) (toSizeT (bn : Int)) = W * C * E * bn := by
      rw [toSizeT_natCast, szMul_mod_right]
      exact szMul_eq_of_lt (by omega)
    have hNle : rw * rh * C * E ≤ W * H * C * E := by
      have h1 : rw * rh ≤ W * H := Nat.mul_le_mul (by omega) (by omega)
      exact Nat.mul_le_mul_right E (Nat.mul_le_mul_right C h1)
    have hN : szMul (szMul (szMul rw rh) C) E = rw * rh * C * E :=
      szMul3_eq_of_lt (by omega)
    obtain ⟨d, hd, -, -, -⟩ := cropRows_spec D (ln * C * E) (W * C * E) (rw * C * E)
      hlnW (by omega) rh (W * C * E * bn) 0 (List.replicate (rw * rh * C * E) 0)
      (by omega)
      (by
        have : rh * (rw * C * E) = rw * rh * C * E := by ring
        simp only [List.length_replicate]
        omega)
      (by simp only [List.length_replicate]; omega)
    refine ⟨{ width_ := rw, height_ := rh, channels_ := C, element_size_ := E, data_ := d },
      ?_, rfl, rfl, rfl, rfl⟩
    simp only [ImageView.crop, ImageView.cropCtor, ImageView.width, ImageView.height,
      ImageView.channels, ImageView.element_size, hrows, hbig, hsmall, hsp, hstride, hN,
      ImageView.ptr, szMul_zero_left, Nat.zero_add]
    rw [hd]

/-- C21: for a source buffer holding exactly `width * height * channels * element_size` bytes
(a `size_t` value) and an ROI inside it (`0 <= left`, `left + roi.width() <= source.width()`,
`0 <= bottom <= top <= source.height()`, `roi.height() = top - bottom`), the loop of the crop
constructor issues exactly `roi.height()` row copies; copy number `y` reads the
`roi.width() * channels * es` bytes at `left * channels * es + (bottom + y) * source.width() *
channels * es`, a range inside the source's bytes, and writes them at
`y * roi.width() * channels * es`, a range inside the `roi.width() * roi.height() * channels *
es` bytes of the new buffer; running these copies is what the constructor does, and it
returns a buffer of that size. -/
theorem C21_crop_in_bounds (source : ImageView) (roi : strobeRectangle)
    (hinv : source.ExactSizeInv) (hfit : source.size < 2 ^ 64)
    (hl : 0 ≤ roi.left) (hw : roi.left + roi.width ≤ source.width)
    (hb : 0 ≤ roi.bottom) (hbt : roi.bottom ≤ roi.top) (ht : roi.top ≤ source.height)
    (hh : (roi.height : Int) = roi.top - roi.bottom) :
    (ImageView.cropCtorCopies source roi).length = roi.height ∧
    (∀ y, y < roi.height →
      ∃ cp, (ImageView.cropCtorCopies source roi)[y]? = some cp ∧
        cp.count = roi.width * source.channels * source.element_size ∧
        cp.srcOff = roi.left.toNat * source.channels * source.element_size +
          (roi.bottom.toNat + y) * source.width * source.channels * source.element_size ∧
        cp.srcOff + cp.count ≤ source.size ∧
        cp.dstOff = y * (roi.width * source.channels * source.element_size) ∧
        cp.dstOff + cp.count ≤
          roi.width * roi.height * source.channels * source.element_size) ∧
    ∃ r, source.crop roi = some r ∧
      ImageView.runCopies source.data_ (ImageView.cropCtorCopies source roi)
        (List.replicate
          (roi.width * roi.height * source.channels * source.element_size) 0) =
        some r.data_ ∧
      r.size = roi.width * roi.height * source.channels * source.element_size := by
  obtain ⟨r, hr, hrw, hrh, hrc, hre⟩ := crop_returns source roi hinv hfit hl hw hb ht hh
  obtain ⟨W, H, C, E, D⟩ := source
  obtain ⟨l, rt, b, t, rw, rh⟩ := roi
  simp only [ImageView.ExactSizeInv, ImageView.size, ImageView.width, ImageView.height,
    ImageView.channels, ImageView.element_size] at hinv hfit hl hw hb hbt ht hh hrw hrh hrc hre ⊢
  obtain ⟨ln, rfl⟩ := Int.eq_ofNat_of_zero_le hl
  obtain ⟨bn, rfl⟩ := Int.eq_ofNat_of_zero_le hb
  have hrows : (t - (bn : Int)).toNat = rh := by rw [← hh]; exact Int.toNat_ofNat rh
  have lw : ln + rw ≤ W := by omega
  have bh : bn + rh ≤ H := by omega
  have hM : W * H * C * E < SIZE_MOD := by rw [← hinv]; exact hfit
  have hNle : rw * rh * C * E ≤ W * H * C * E := by
    have h1 : rw * rh ≤ W * H := Nat.mul_le_mul (by omega) (by omega)
    exact Nat.mul_le_mul_right E (Nat.mul_le_mul_right C h1)
  have hN : szMul (szMul (szMul rw rh) C) E = rw * rh * C * E := szMul3_eq_of_lt (by omega)
  have hlen : (ImageView.cropCtorCopies
      { width_ := W, height_ := H, channels_ := C, element_size_ := E, data_ := D }
      { left := (ln : Int), right := rt, bottom := (bn : Int), top := t, width := rw,
        height := rh }).length = rh := by
    simp only [ImageView.cropCtorCopies, cropCopies_length, hrows]
  have hsize : r.data_.length = rw * rh * C * E := by
    have := sizeInv_cropCtor hr
    simp only [ImageView.SizeInv, ImageView.size, ImageView.width, ImageView.height,
      ImageView.channels, ImageView.element_size] at this
    rw [this, hrw, hrh, hrc, hre, hN]
  refine ⟨hlen, ?_, r, hr, ?_, hsize⟩
  · intro y hy
    have hH : 1 ≤ H := by omega
    have eWH : W * H * C * E = H * (W * C * E) := by ring
    have hWCE : W * C * E ≤ W * H * C * E := by
      rw [eWH]; exact Nat.le_mul_of_pos_left _ hH
    have hbig : szMul (szMul W C) E = W * C * E := szMul2_eq_of_lt (by omega)
    have hrwW : rw * C * E ≤ W * C * E :=
      Nat.mul_le_mul_right E (Nat.mul_le_mul_right C (by omega))
    have hsmall : szMul (szMul rw C) E = rw * C * E := szMul2_eq_of_lt (by omega)
    have hlnW : ln * C * E + rw * C * E ≤ W * C * E := by
      have : (ln + rw) * C * E ≤ W * C * E :=
        Nat.mul_le_mul_right E (Nat.mul_le_mul_right C lw)
      calc ln * C * E + rw * C * E = (ln + rw) * C * E := by ring
        _ ≤ W * C * E := this
    have hsp : szMul (szMul (toSizeT (ln : Int)) C) E = ln * C * E := by
      rw [toSizeT_natCast, szMul_mod_left]
      exact szMul2_eq_of_lt (by omega)
    have hbH : W * C * E * bn + rh * (W * C * E) ≤ W * H * C * E := by
      have : (bn + rh) * (W * C * E) ≤ H * (W * C * E) := Nat.mul_le_mul_right _ bh
      calc W * C * E * bn + rh * (W * C * E) = (bn + rh) * (W * C * E) := by ring
        _ ≤ H * (W * C * E) := this
        _ = W * H * C * E := by ring
    have hstride : szMul (W * C * E) (toSizeT (bn : Int)) = W * C * E * bn := by
      rw [toSizeT_natCast, szMul_mod_right]
      exact szMul_eq_of_lt (by omega)
    have hrr : rh * (rw * C * E) = rw * rh * C * E := by ring
    have hget := cropCopies_getElem? (ln * C * E) (W * C * E) (rw * C * E) rh
      (W * C * E * bn) 0 (by omega) (by omega) y hy
    refine ⟨{ dstOff := 0 + y * (rw * C * E),
              srcOff := ln * C * E + (W * C * E * bn + y * (W * C * E)),
              count := rw * C * E }, ?_, rfl, ?_, ?_, ?_, ?_⟩
    · simp only [ImageView.cropCtorCopies, ImageView.width, ImageView.channels,
        ImageView.element_size, hrows, hbig, hsmall, hsp, hstride, ImageView.ptr,
        szMul_zero_left, Nat.zero_add]
      rw [hget, Nat.zero_add]
    · simp only [Int.toNat_ofNat]
      ring
    · simp only
      have hy1 : (y + 1) * (W * C * E) ≤ rh * (W * C * E) := Nat.mul_le_mul_right _ hy
      rw [Nat.succ_mul] at hy1
      omega
    · simp only [Nat.zero_add]
    · simp only [Nat.zero_add]
      have hy1 : (y + 1) * (rw * C * E) ≤ rh * (rw * C * E) := Nat.mul_le_mul_right _ hy
      rw [Nat.succ_mul] at hy1
      omega
  · have h2 := cropCtor_eq_runCopies
      { width_ := W, height_ := H, channels_ := C, element_size_ := E, data_ := D }
      { left := (ln : Int), right := rt, bottom := (bn : Int), top := t, width := rw,
        height := rh }
    simp only [ImageView.crop] at hr
    rw [hr] at h2
    simp only [ImageView.channels, ImageView.element_size, hN] at h2
    cases hrun : ImageView.runCopies D (ImageView.cropCtorCopies
        { width_ := W, height_ := H, channels_ := C, element_size_ := E, data_ := D }
        { left := (ln : Int), right := rt, bottom := (bn : Int), top := t, width := rw,
          height := rh }) (List.replicate (rw * rh * C * E) 0) with
    | none => rw [hrun] at h2; simp at h2
    | some d =>
      rw [hrun] at h2
      simp only [Option.map_some', Option.some.injEq] at h2
      rw [h2]

/-- C21 at a concrete input: the 3 x 3 one-byte source cropped to the 2 x 2 region at
column 1, row 1. -/
theorem C21_crop_in_bounds_witness :
    (ImageView.cropCtorCopies
        { width_ := 3, height_ := 3, channels_ := 1, element_size_ := 1,
          data_ := [1, 2, 3, 4, 5, 6, 7, 8, 9] }
        { left := 1, right := 3, bottom := 1, top := 3, width := 2, height := 2 }).length = 2 ∧
    (∀ y, y < 2 →
      ∃ cp, (ImageView.cropCtorCopies
          { width_ := 3, height_ := 3, channels_ := 1, element_size_ := 1,
            data_ := [1, 2, 3, 4, 5, 6, 7, 8, 9] }
          { left := 1, right := 3, bottom := 1, top := 3, width := 2, height := 2 })[y]? =
            some cp ∧
        cp.count = 2 * 1 * 1 ∧
        cp.srcOff = 1 * 1 * 1 + (1 + y) * 3 * 1 * 1 ∧
        cp.srcOff + cp.count ≤ 9 ∧
        cp.dstOff = y * (2 * 1 * 1) ∧
        cp.dstOff + cp.count ≤ 2 * 2 * 1 * 1) ∧
    ∃ r, ImageView.crop
        { width_ := 3, height_ := 3, channels_ := 1, element_size_ := 1,
          data_ := [1, 2, 3, 4, 5, 6, 7, 8, 9] }
        { left := 1, right := 3, bottom := 1, top := 3, width := 2, height := 2 } = some r ∧
      ImageView.runCopies [1, 2, 3, 4, 5, 6, 7, 8, 9]
        (ImageView.cropCtorCopies
          { width_ := 3, height_ := 3, channels_ := 1, element_size_ := 1,
            data_ := [1, 2, 3, 4, 5, 6, 7, 8, 9] }
          { left := 1, right := 3, bottom := 1, top := 3, width := 2, height := 2 })
        (List.replicate (2 * 2 * 1 * 1) 0) = some r.data_ ∧
      r.size = 2 * 2 * 1 * 1 :=
  C21_crop_in_bounds
    { width_ := 3, height_ := 3, channels_ := 1, element_size_ := 1,
      data_ := [1, 2, 3, 4, 5, 6, 7, 8, 9] }
    { left := 1, right := 3, bottom := 1, top := 3, width := 2, height := 2 }
    (by decide) (by decide) (by decide) (by decide) (by decide) (by decide) (by decide)
    (by decide)

/-- C21, computed: the two row copies of that crop and its result. -/
theorem C21_values_example :
    ImageView.cropCtorCopies
        { width_ := 3, height_ := 3, channels_ := 1, element_size_ := 1,
          data_ := [1, 2, 3, 4, 5, 6, 7, 8, 9] }
        { left := 1, right := 3, bottom := 1, top := 3, width := 2, height := 2 } =
      [{ dstOff := 0, srcOff := 4, count := 2 }, { dstOff := 2, srcOff := 7, count := 2 }] ∧
    ImageView.crop
        { width_ := 3, height_ := 3, channels_ := 1, element_size_ := 1,
          data_ := [1, 2, 3, 4, 5, 6, 7, 8, 9] }
        { left := 1, right := 3, bottom := 1, top := 3, width := 2, height := 2 } =
      some { width_ := 2, height_ := 2, channels_ := 1, element_size_ := 1,
             data_ := [5, 6, 8, 9] } := by
  decide

end TestRepos
